import Mathlib

/-!
Verification of the lakesuperior storage core against its specification.

This file gives a shallow embedding, in Lean 4, of the parts of the
repository that the specification's claims talk about:

* `LexicalSequence` — the fixed-length lexicographic key allocator
  (`lakesuperior/store/ldp_rs/lmdb_store.py`, class `LexicalSequence`);
* the LMDB-backed quad store (`LmdbStore`): its eight databases are
  modelled as association lists with LMDB `dupsort` set semantics, and the
  operations `add`, `remove`, `triples`/`_triple_keys`/`_lookup`,
  `add_graph`, `remove_graph` are translated statement by statement;
* `SimpleLayout.extract_imr` (`store_layouts/rdf/simple_layout.py`);
* `Toolbox.rdf_cksum` (`toolbox.py`);
* the pairtree creation walk of `Ldpr._find_parent_or_create_pairtree`
  and `Ldpr._create_path_segment` (`model/ldpr.py`);
* the transaction scope of `TxnManager` and the `atomic` decorator.

Terms are kept abstract (`Term` with decidable equality); interned term
keys are modelled as `Nat` (the source uses fixed-length byte strings
allocated in strictly increasing lexicographic order — only their identity
and ordering matter to the operations embedded here).  Term hashing
(`th:t` is keyed by `SHA1(pickle(term))`) is collision-free by the spec's
assumption, so `th:t` is modelled as keyed by the term itself.
-/

/-! ## Generic association-list helpers (LMDB database model)

An LMDB database inside one snapshot is a set of key/value pairs; for a
`dupsort` database a key may carry several values and an exact (key,
value) pair is stored at most once (`put` of an existing pair is a no-op).
-/

/-- First value stored under a key (models `cursor.get`/`set_key` on a 1:1
database). -/
def assocGet {α β : Type} [DecidableEq α] : List (α × β) → α → Option β
  | [], _ => none
  | (k, v) :: rest, a => if k = a then some v else assocGet rest a

/-- All values stored under a key, in order (models `cursor.iternext_dup`
after `set_key`). -/
def dups {α β : Type} [DecidableEq α] (l : List (α × β)) (k : α) : List β :=
  (l.filter (fun e => e.1 = k)).map (fun e => e.2)

/-- `put` on a dupsort database: insert the pair unless it is already
present (LMDB stores each exact duplicate pair once). -/
def dupPut {α β : Type} [DecidableEq α] [DecidableEq β]
    (l : List (α × β)) (k : α) (v : β) : List (α × β) :=
  if (k, v) ∈ l then l else l ++ [(k, v)]

/-- Delete one exact pair from a dupsort database (models `set_key_dup`
followed by `delete`; the pair occurs at most once). -/
def dupDel {α β : Type} [DecidableEq α] [DecidableEq β]
    (l : List (α × β)) (k : α) (v : β) : List (α × β) :=
  l.filter (fun e => e ≠ (k, v))

theorem assocGet_append_left {α β : Type} [DecidableEq α]
    (l l2 : List (α × β)) (a : α) (b : β) (h : assocGet l a = some b) :
    assocGet (l ++ l2) a = some b := by
  induction l with
  | nil => simp [assocGet] at h
  | cons e rest ih =>
    rw [List.cons_append]
    rcases e with ⟨k, v⟩
    by_cases hk : k = a
    · simpa [assocGet, hk] using by simpa [assocGet, hk] using h
    · rw [assocGet, if_neg hk] at h ⊢
      exact ih h

theorem assocGet_append_self {α β : Type} [DecidableEq α]
    (l : List (α × β)) (a : α) (b : β) (h : assocGet l a = none) :
    assocGet (l ++ [(a, b)]) a = some b := by
  induction l with
  | nil => simp [assocGet]
  | cons e rest ih =>
    rcases e with ⟨k, v⟩
    by_cases hk : k = a
    · rw [assocGet, if_pos hk] at h
      exact absurd h (by simp)
    · rw [assocGet, if_neg hk] at h
      rw [List.cons_append, assocGet, if_neg hk]
      exact ih h

theorem assocGet_mem {α β : Type} [DecidableEq α]
    (l : List (α × β)) (a : α) (b : β) (h : assocGet l a = some b) :
    (a, b) ∈ l := by
  induction l with
  | nil => simp [assocGet] at h
  | cons e rest ih =>
    rcases e with ⟨k, v⟩
    by_cases hk : k = a
    · rw [assocGet, if_pos hk] at h
      subst hk
      simp only [Option.some.injEq] at h
      subst h
      exact List.mem_cons_self _ _
    · rw [assocGet, if_neg hk] at h
      exact List.mem_cons_of_mem _ (ih h)

theorem assocGet_of_mem {α β : Type} [DecidableEq α]
    (l : List (α × β)) (a : α) (b : β)
    (hfun : ∀ e ∈ l, ∀ e2 ∈ l, e.1 = e2.1 → e.2 = e2.2)
    (h : (a, b) ∈ l) : assocGet l a = some b := by
  induction l with
  | nil => simp at h
  | cons e rest ih =>
    rcases e with ⟨k, v⟩
    by_cases hk : k = a
    · rw [assocGet, if_pos hk]
      subst hk
      have hv := hfun (k, v) (List.mem_cons_self _ _) (k, b) h rfl
      simp only at hv
      rw [hv]
    · rw [assocGet, if_neg hk]
      rcases List.mem_cons.mp h with h1 | h1
      · exact absurd (congrArg Prod.fst h1).symm hk
      · exact ih (fun e he e2 he2 => hfun e (List.mem_cons_of_mem _ he) e2
          (List.mem_cons_of_mem _ he2)) h1

theorem assocGet_none_not_mem {α β : Type} [DecidableEq α]
    (l : List (α × β)) (a : α) (h : assocGet l a = none) :
    ∀ b, (a, b) ∉ l := by
  intro b hb
  induction l with
  | nil => simp at hb
  | cons e rest ih =>
    rcases e with ⟨k, v⟩
    by_cases hk : k = a
    · rw [assocGet, if_pos hk] at h
      exact absurd h (by simp)
    · rw [assocGet, if_neg hk] at h
      rcases List.mem_cons.mp hb with h1 | h1
      · exact hk (congrArg Prod.fst h1).symm
      · exact ih h h1

theorem dupPut_mem {α β : Type} [DecidableEq α] [DecidableEq β]
    (l : List (α × β)) (k : α) (v : β) : (k, v) ∈ dupPut l k v := by
  unfold dupPut
  by_cases h : (k, v) ∈ l
  · rw [if_pos h]; exact h
  · rw [if_neg h]; simp

theorem dupPut_of_mem {α β : Type} [DecidableEq α] [DecidableEq β]
    (l : List (α × β)) (k : α) (v : β) (h : (k, v) ∈ l) :
    dupPut l k v = l := by
  unfold dupPut
  rw [if_pos h]

theorem mem_dupPut_iff {α β : Type} [DecidableEq α] [DecidableEq β]
    (l : List (α × β)) (k : α) (v : β) (e : α × β) :
    e ∈ dupPut l k v ↔ e ∈ l ∨ e = (k, v) := by
  unfold dupPut
  by_cases h : (k, v) ∈ l
  · rw [if_pos h]
    constructor
    · exact Or.inl
    · rintro (h1 | h1)
      · exact h1
      · rw [h1]; exact h
  · rw [if_neg h]
    simp

theorem mem_dupDel_iff {α β : Type} [DecidableEq α] [DecidableEq β]
    (l : List (α × β)) (k : α) (v : β) (e : α × β) :
    e ∈ dupDel l k v ↔ e ∈ l ∧ e ≠ (k, v) := by
  unfold dupDel
  simp

/-! ## KeySequence: `LexicalSequence` (lmdb_store.py lines 71–135)

Byte strings are modelled as `List Nat` with byte values below 256; the
Python truthiness test `if not n` (matching both `None` and the empty
byte string) is modelled by `Option (List Nat)` together with the
emptiness test.  In the source, incrementing a `bytearray` cell holding
255 raises `ValueError`, caught to trigger the carry.
-/

/-- Errors of `LexicalSequence.next`: a wrong-length input raises
`ValueError` (invalid argument), carrying past position 0 raises
`RuntimeError` (sequence exhausted). -/
inductive SeqErr
  | invalidLength
  | exhausted
  deriving DecidableEq

structure LexicalSequence where
  start : Nat
  length : Nat
  deriving DecidableEq

/-- First possible combination (`LexicalSequence.first`). -/
def LexicalSequence.first (seq : LexicalSequence) : List Nat :=
  List.replicate seq.length seq.start

/-- The carry loop of `LexicalSequence.next`, acting on the reversed byte
sequence (the source iterates `list(enumerate(n))[::-1]`): increment the
current byte; on overflow at position 0 fail (exhausted), otherwise reset
the byte to `start` and carry leftwards. -/
def incrRev (start : Nat) : List Nat → Option (List Nat)
  | [] => none
  | b :: rest =>
    if b < 255 then some ((b + 1) :: rest)
    else if rest.isEmpty then none
    else (incrRev start rest).map (fun r => start :: r)

/-- `LexicalSequence.next`: the next byte sequence in lexicographic order.
A falsy input (`None` or empty) is replaced by `first()` — and then still
runs through the increment loop. -/
def LexicalSequence.next (seq : LexicalSequence) (n? : Option (List Nat)) :
    Except SeqErr (List Nat) :=
  let n : List Nat :=
    match n? with
    | none => seq.first
    | some l => if l.isEmpty then seq.first else l
  if n.length = seq.length then
    match incrRev seq.start n.reverse with
    | some r => .ok r.reverse
    | none => .error .exhausted
  else .error .invalidLength

theorem incrRev_all255 (s : Nat) :
    ∀ k, 0 < k → incrRev s (List.replicate k 255) = none := by
  intro k
  induction k with
  | zero => intro h; exact absurd h (by simp)
  | succ n ih =>
    intro _
    rw [List.replicate_succ, incrRev]
    cases n with
    | zero => simp
    | succ m =>
      have h2 : incrRev s (List.replicate (m + 1) 255) = none := ih (by omega)
      have hne : (List.replicate (m + 1) 255).isEmpty = false := by
        simp [List.replicate_succ]
      simp [hne, h2]

theorem incrRev_carry (s : Nat) (b : Nat) (hb : b < 255) (t : List Nat) :
    ∀ k, incrRev s (List.replicate k 255 ++ b :: t) =
      some (List.replicate k s ++ (b + 1) :: t) := by
  intro k
  induction k with
  | zero => simp [incrRev, hb]
  | succ n ih =>
    rw [List.replicate_succ, List.cons_append, incrRev]
    have hne : (List.replicate n 255 ++ b :: t).isEmpty = false := by
      cases h : List.replicate n 255 ++ b :: t with
      | nil => exact absurd h (by simp)
      | cons x xs => simp
    simp [hne, ih, List.replicate_succ]

theorem lexSeq_next_some_eq (seq : LexicalSequence) (l : List Nat)
    (hne : l.isEmpty = false) :
    seq.next (some l) =
      if l.length = seq.length then
        match incrRev seq.start l.reverse with
        | some r => Except.ok r.reverse
        | none => Except.error SeqErr.exhausted
      else Except.error SeqErr.invalidLength := by
  rw [LexicalSequence.next.eq_def]
  simp only [hne, Bool.false_eq_true, if_false]

theorem lexSeq_next_falsy_eq (seq : LexicalSequence) (n? : Option (List Nat))
    (hf : n? = none ∨ n? = some []) :
    seq.next n? =
      if seq.first.length = seq.length then
        match incrRev seq.start seq.first.reverse with
        | some r => Except.ok r.reverse
        | none => Except.error SeqErr.exhausted
      else Except.error SeqErr.invalidLength := by
  rcases hf with h | h
  · subst h
    rw [LexicalSequence.next.eq_def]
  · subst h
    rw [LexicalSequence.next.eq_def]
    simp

/-- C4 (corrected). `LexicalSequence.next`: a call with no prior key (or an
empty one) substitutes `first()` and then still runs the increment loop, so
it returns `[start, …, start, start+1]` (not `[start, …, start]` as
claimed); a non-empty input whose length differs from the declared length
fails with the invalid-argument error; an input of the declared length has
its last byte incremented, a trailing run of overflowing bytes is reset to
`start` with a carry into the previous position, and a carry past position
0 (all bytes at 255) is a fatal exhaustion error. -/
theorem lexical_seq_next_amended (seq : LexicalSequence)
    (hlen : 0 < seq.length) (hs : seq.start < 255) :
    (seq.next none =
      .ok (List.replicate (seq.length - 1) seq.start ++ [seq.start + 1])) ∧
    (seq.next (some []) =
      .ok (List.replicate (seq.length - 1) seq.start ++ [seq.start + 1])) ∧
    (∀ n : List Nat, n ≠ [] → n.length ≠ seq.length →
      seq.next (some n) = .error .invalidLength) ∧
    (∀ (n : List Nat) (b k : Nat),
      (n ++ b :: List.replicate k 255).length = seq.length → b < 255 →
      seq.next (some (n ++ b :: List.replicate k 255)) =
        .ok (n ++ (b + 1) :: List.replicate k seq.start)) ∧
    (seq.next (some (List.replicate seq.length 255)) = .error .exhausted) := by
  obtain ⟨m, hm⟩ : ∃ m, seq.length = m + 1 := ⟨seq.length - 1, by omega⟩
  have hfl : seq.first.length = seq.length := by simp [LexicalSequence.first]
  have hfirst :
      (if seq.first.length = seq.length then
        match incrRev seq.start seq.first.reverse with
        | some r => Except.ok r.reverse
        | none => Except.error SeqErr.exhausted
      else Except.error SeqErr.invalidLength) =
      (Except.ok (List.replicate (seq.length - 1) seq.start ++ [seq.start + 1]) :
        Except SeqErr (List Nat)) := by
    rw [if_pos hfl, LexicalSequence.first, List.reverse_replicate, hm,
      List.replicate_succ, incrRev, if_pos hs]
    simp [hm, List.reverse_replicate]
  refine ⟨?_, ?_, ?_, ?_, ?_⟩
  · rw [lexSeq_next_falsy_eq seq none (Or.inl rfl)]
    exact hfirst
  · rw [lexSeq_next_falsy_eq seq (some []) (Or.inr rfl)]
    exact hfirst
  · intro n hne hlen2
    have hemp : n.isEmpty = false := by
      cases n with
      | nil => exact absurd rfl hne
      | cons x xs => simp
    rw [lexSeq_next_some_eq seq n hemp, if_neg hlen2]
  · intro n b k hlen2 hb
    have hemp : (n ++ b :: List.replicate k 255).isEmpty = false := by
      cases h : n ++ b :: List.replicate k 255 with
      | nil => exact absurd h (by simp)
      | cons x xs => simp
    rw [lexSeq_next_some_eq seq _ hemp, if_pos hlen2]
    have hrev : (n ++ b :: List.replicate k 255).reverse =
        List.replicate k 255 ++ b :: n.reverse := by
      rw [List.reverse_append, List.reverse_cons, List.reverse_replicate,
        List.append_assoc, List.singleton_append]
    rw [hrev, incrRev_carry seq.start b hb n.reverse k]
    simp only [List.reverse_append, List.reverse_cons, List.reverse_replicate,
      List.reverse_reverse, List.append_assoc, List.singleton_append]
  · have hemp : (List.replicate seq.length 255).isEmpty = false := by
      rw [hm]
      simp [List.replicate_succ]
    rw [lexSeq_next_some_eq seq _ hemp, if_pos (by simp), List.reverse_replicate,
      incrRev_all255 seq.start seq.length hlen]

/-- C4 counterexample: with the store's parameters (`KEY_START = 2`,
`KEY_LENGTH = 5`), `next(None)` returns `[2,2,2,2,3]` — `first()` with the
final increment applied — and not `[start,…,start] = [2,2,2,2,2]` as the
claim states. -/
theorem lexical_seq_first_call_cex :
    (LexicalSequence.mk 2 5).next none = .ok [2, 2, 2, 2, 3] ∧
    ([2, 2, 2, 2, 3] : List Nat) ≠ [2, 2, 2, 2, 2] := by
  exact ⟨rfl, by decide⟩

/-- Witness for `lexical_seq_next_amended` at the store's parameters. -/
theorem lexical_seq_next_amended_witness :
    0 < (LexicalSequence.mk 2 5).length ∧
    (LexicalSequence.mk 2 5).start < 255 ∧
    (LexicalSequence.mk 2 5).next (some [2, 2, 2, 9, 255]) =
      .ok [2, 2, 2, 10, 2] := by
  refine ⟨by decide, by decide, ?_⟩
  have h := (lexical_seq_next_amended (LexicalSequence.mk 2 5)
    (by decide) (by decide)).2.2.2.1 [2, 2, 2] 9 1 (by decide) (by decide)
  simpa using h

/-! ## The quad store: `LmdbStore` (lmdb_store.py lines 139–1104)

The eight databases relevant to the claims are modelled as association
lists.  One store snapshot:

* `tSt`  — `t:st`, term key → serialized term (1:1);
* `thT`  — `th:t`, term hash → term key (1:1; SHA1 collision-free, so the
  list is keyed by the term itself);
* `spoC` — `spo:c`, triple key → context key (dupsort);
* `cDb`  — `c:`, context keys with empty values;
* `cSpo` — `c:spo`, context key → triple key (dupsort);
* `sPo`, `pSo`, `oSp` — the three lookup indices (dupsort).

Interned keys are `Nat`; a fresh key is strictly larger than every
allocated one, abstracting `_append`/`LexicalSequence.next` on `t:st`.
-/

/-- Joined triple key (the source's `sKey∥SEP∥pKey∥SEP∥oKey`). -/
abbrev TripleKey := Nat × Nat × Nat

structure StoreState (Term : Type) where
  tSt : List (Nat × Term)
  thT : List (Term × Nat)
  spoC : List (TripleKey × Nat)
  cDb : List Nat
  cSpo : List (Nat × TripleKey)
  sPo : List (Nat × (Nat × Nat))
  pSo : List (Nat × (Nat × Nat))
  oSp : List (Nat × (Nat × Nat))
  deriving DecidableEq

/-- A store with empty databases (the state after `open` on a new path). -/
def emptyStore {Term : Type} : StoreState Term :=
  ⟨[], [], [], [], [], [], [], []⟩

variable {Term : Type} [DecidableEq Term]

/-- Mirrors `LmdbStore._to_key` on a single term: look the term's hash up in
`th:t`; `None` when not interned. -/
def toKey (st : StoreState Term) (t : Term) : Option Nat :=
  assocGet st.thT t

/-- Mirrors `LmdbStore._to_key` on a triple: `None` as soon as any of the
three terms is not interned. -/
def toKey3 (st : StoreState Term) (tr : Term × Term × Term) : Option TripleKey :=
  match toKey st tr.1, toKey st tr.2.1, toKey st tr.2.2 with
  | some a, some b, some c => some (a, b, c)
  | _, _, _ => none

/-- Mirrors `LmdbStore._from_key` on a triple key: resolve each sub-key in
`t:st`. -/
def fromKey (st : StoreState Term) (spok : TripleKey) :
    Option (Term × Term × Term) :=
  match assocGet st.tSt spok.1, assocGet st.tSt spok.2.1,
      assocGet st.tSt spok.2.2 with
  | some a, some b, some c => some (a, b, c)
  | _, _, _ => none

/-- Key allocation: the source reads the last (largest) key in `t:st` and
takes its `LexicalSequence` successor; abstracted over `Nat` keys as one
more than the largest allocated key. -/
def freshKey (st : StoreState Term) : Nat :=
  (st.tSt.map (fun e => e.1)).foldr max 0 + 1

/-- Interning one term inside `add` (lmdb_store.py lines 472–484): if the
term hash is in `th:t` reuse the key, otherwise append the term to `t:st`
under a fresh key and index the hash. -/
def internTerm (st : StoreState Term) (t : Term) : Nat × StoreState Term :=
  match assocGet st.thT t with
  | some k => (k, st)
  | none =>
    let k := freshKey st
    (k, { st with tSt := st.tSt ++ [(k, t)], thT := st.thT ++ [(t, k)] })

/-- Interning of s, p, o and the context, in the order `add` performs it. -/
def internQuad (st : StoreState Term) (tr : Term × Term × Term) (c : Term) :
    (Nat × Nat × Nat × Nat) × StoreState Term :=
  let r1 := internTerm st tr.1
  let r2 := internTerm r1.2 tr.2.1
  let r3 := internTerm r2.2 tr.2.2
  let r4 := internTerm r3.2 c
  ((r1.1, r2.1, r3.1, r4.1), r4.2)

/-- Mirrors `LmdbStore._index_triple('add', spok)`: put the three lookup
pairs (idempotent on duplicates). -/
def indexTripleAdd (st : StoreState Term) (spok : TripleKey) : StoreState Term :=
  { st with
    sPo := dupPut st.sPo spok.1 (spok.2.1, spok.2.2),
    pSo := dupPut st.pSo spok.2.1 (spok.1, spok.2.2),
    oSp := dupPut st.oSp spok.2.2 (spok.1, spok.2.1) }

/-- Mirrors `LmdbStore._index_triple('remove', spok)`: delete each lookup
pair that is present. -/
def indexTripleRemove (st : StoreState Term) (spok : TripleKey) :
    StoreState Term :=
  { st with
    sPo := if (spok.1, (spok.2.1, spok.2.2)) ∈ st.sPo then
      dupDel st.sPo spok.1 (spok.2.1, spok.2.2) else st.sPo,
    pSo := if (spok.2.1, (spok.1, spok.2.2)) ∈ st.pSo then
      dupDel st.pSo spok.2.1 (spok.1, spok.2.2) else st.pSo,
    oSp := if (spok.2.2, (spok.1, spok.2.1)) ∈ st.oSp then
      dupDel st.oSp spok.2.2 (spok.1, spok.2.1) else st.oSp }

/-- Mirrors `LmdbStore.add` (lines 449–501): normalize a `None` context to
the default-graph identifier `dg`, intern the four terms, record the
context in `c:`, insert the `spo:c` and `c:spo` associations, and update
the lookup indices. -/
def addQuad (dg : Term) (st : StoreState Term) (tr : Term × Term × Term)
    (ctx? : Option Term) : StoreState Term :=
  let c := ctx?.getD dg
  let q := internQuad st tr c
  let spok : TripleKey := (q.1.1, q.1.2.1, q.1.2.2.1)
  let kc := q.1.2.2.2
  let st4 := q.2
  let st5 := { st4 with
    cDb := if kc ∈ st4.cDb then st4.cDb else st4.cDb ++ [kc] }
  let st6 := { st5 with spoC := dupPut st5.spoC spok kc }
  let st7 := { st6 with cSpo := dupPut st6.cSpo kc spok }
  indexTripleAdd st7 spok

/-- The three patterns of `_lookup_1bound`, with `_lookup_ordering`:
`s:po → (0,1,2)`, `p:so → (1,0,2)`, `o:sp → (2,0,1)`. -/
def lookup1boundS (st : StoreState Term) (t : Term) : List TripleKey :=
  match toKey st t with
  | none => []
  | some k => (dups st.sPo k).map (fun po => (k, po.1, po.2))

def lookup1boundP (st : StoreState Term) (t : Term) : List TripleKey :=
  match toKey st t with
  | none => []
  | some k => (dups st.pSo k).map (fun so => (so.1, k, so.2))

def lookup1boundO (st : StoreState Term) (t : Term) : List TripleKey :=
  match toKey st t with
  | none => []
  | some k => (dups st.oSp k).map (fun sp => (sp.1, sp.2, k))

/-- `_lookup_2bound` with s and p bound: the ranking `(s, o, p)` picks
`s:po` as primary (lookup key s); p filters sub-key position 0 of each
duplicate value, and the remainder sub-key completes the triple. -/
def lookup2boundSP (st : StoreState Term) (s p : Term) : List TripleKey :=
  match toKey st s with
  | none => []
  | some ks =>
    match toKey st p with
    | none => []
    | some kp =>
      ((dups st.sPo ks).filter (fun po => po.1 = kp)).map
        (fun po => (ks, kp, po.2))

/-- `_lookup_2bound` with s and o bound: primary `s:po` (lookup key s);
o filters sub-key position 1. -/
def lookup2boundSO (st : StoreState Term) (s o : Term) : List TripleKey :=
  match toKey st s with
  | none => []
  | some ks =>
    match toKey st o with
    | none => []
    | some ko =>
      ((dups st.sPo ks).filter (fun po => po.2 = ko)).map
        (fun po => (ks, po.1, ko))

/-- `_lookup_2bound` with p and o bound: the ranking picks `o:sp` as
primary (lookup key o); p filters sub-key position 1. -/
def lookup2boundPO (st : StoreState Term) (p o : Term) : List TripleKey :=
  match toKey st o with
  | none => []
  | some ko =>
    match toKey st p with
    | none => []
    | some kp =>
      ((dups st.oSp ko).filter (fun sp => sp.2 = kp)).map
        (fun sp => (sp.1, kp, ko))

/-- Mirrors `LmdbStore._lookup` (lines 916–961).  `none` models the raised
`TypeError`: for a fully bound pattern `_to_key` may return `None`, which
is then passed to `cursor.set_key` (the other branches guard against a
missing term; this one does not). -/
def lookupE (st : StoreState Term)
    (pat : Option Term × Option Term × Option Term) :
    Option (List TripleKey) :=
  match pat with
  | (some s, some p, some o) =>
    match toKey3 st (s, p, o) with
    | none => none
    | some spok =>
      some (if st.spoC.any (fun e => e.1 = spok) then [spok] else [])
  | (some s, some p, none) => some (lookup2boundSP st s p)
  | (some s, none, some o) => some (lookup2boundSO st s o)
  | (some s, none, none) => some (lookup1boundS st s)
  | (none, some p, some o) => some (lookup2boundPO st p o)
  | (none, some p, none) => some (lookup1boundP st p)
  | (none, none, some o) => some (lookup1boundO st o)
  | (none, none, none) => some ((st.spoC.map (fun e => e.1)).dedup)

/-- Mirrors `LmdbStore._triple_keys` (lines 742–794): with a context, a
missing context key yields nothing; a fully bound pattern is probed as a
`(ctxKey, tripleKey)` pair in `c:spo`; an all-unbound pattern iterates the
context's duplicates; other patterns run `_lookup` filtered by `c:spo`
membership.  Without a context this is `_lookup`. -/
def tripleKeysE (st : StoreState Term)
    (pat : Option Term × Option Term × Option Term) (ctx? : Option Term) :
    Option (List TripleKey) :=
  match ctx? with
  | none => lookupE st pat
  | some c =>
    match toKey st c with
    | none => some []
    | some ck =>
      match pat with
      | (some s, some p, some o) =>
        match toKey3 st (s, p, o) with
        | none => some []
        | some spok => some (if (ck, spok) ∈ st.cSpo then [spok] else [])
      | (none, none, none) => some (dups st.cSpo ck)
      | pat2 =>
        (lookupE st pat2).map
          (fun l => l.filter (fun spok => (ck, spok) ∈ st.cSpo))

/-- Mirrors the context normalization at the top of `LmdbStore.triples`
(lines 561–563): a context equal to the reserved default-graph identifier
is replaced by `None` before key iteration. -/
def triplesKeys (dg : Term) (st : StoreState Term)
    (pat : Option Term × Option Term × Option Term) (ctx? : Option Term) :
    Option (List TripleKey) :=
  tripleKeysE st pat (if ctx? = some dg then none else ctx?)

/-- Quad membership as observed through `triples` (the rdflib containment
check): the fully bound pattern scoped by the quad's context yields at
least one result. -/
def containsQuad (dg : Term) (st : StoreState Term) (tr : Term × Term × Term)
    (ctx? : Option Term) : Bool :=
  match triplesKeys dg st (some tr.1, some tr.2.1, some tr.2.2) ctx? with
  | none => false
  | some l => decide (l ≠ [])

/-- One iteration of the loop in `LmdbStore.remove` (lines 520–541) for a
matched triple key, threading the Python variable `ck`: when a context key
is at hand, delete the single pair from `spo:c` and `c:spo`; otherwise
delete the pair from `c:spo` for every context of the triple key and then
drop all of the key's `spo:c` duplicates.  (The loop over `iternext_dup`
leaks its variable into `ck`, faithfully reproduced by the returned
option.)  In both branches `_index_triple('remove', spok)` then removes
the lookup entries unconditionally. -/
def removeOne (st : StoreState Term) (ck? : Option Nat) (spok : TripleKey) :
    StoreState Term × Option Nat :=
  match ck? with
  | some ck =>
    let st1 :=
      if (spok, ck) ∈ st.spoC then
        let stA := { st with spoC := dupDel st.spoC spok ck }
        if (ck, spok) ∈ stA.cSpo then
          { stA with cSpo := dupDel stA.cSpo ck spok }
        else stA
      else st
    (indexTripleRemove st1 spok, some ck)
  | none =>
    match dups st.spoC spok with
    | [] => (indexTripleRemove st spok, none)
    | _ :: _ =>
      let cks := dups st.spoC spok
      let newCSpo := cks.foldl
        (fun l ck => if (ck, spok) ∈ l then dupDel l ck spok else l) st.cSpo
      let stA := { st with cSpo := newCSpo }
      let stB := { stA with spoC := stA.spoC.filter (fun e => e.1 ≠ spok) }
      (indexTripleRemove stB spok, cks.getLast?)

/-- Mirrors `LmdbStore.remove` (lines 504–541): with a context that is not
interned, return without touching anything; otherwise fold the per-key
deletion over the (deduplicated) matching triple keys.  `none` propagates
the `TypeError` a fully bound context-free pattern with a missing term
raises inside `_triple_keys`. -/
def removeQ (st : StoreState Term)
    (pat : Option Term × Option Term × Option Term) (ctx? : Option Term) :
    Option (StoreState Term) :=
  match ctx? with
  | some c =>
    match toKey st c with
    | none => some st
    | some ck =>
      match tripleKeysE st pat (some c) with
      | none => none
      | some spoks =>
        some ((spoks.dedup.foldl
          (fun acc spok => removeOne acc.1 acc.2 spok) (st, some ck)).1)
  | none =>
    match tripleKeysE st pat none with
    | none => none
    | some spoks =>
      some ((spoks.dedup.foldl
        (fun acc spok => removeOne acc.1 acc.2 spok) (st, none)).1)

/-- Mirrors `LmdbStore.add_graph` (lines 649–690): if the graph term's hash
is unknown, intern the term and record its key in `c:`; otherwise do
nothing. -/
def addGraph (st : StoreState Term) (gr : Term) : StoreState Term :=
  match assocGet st.thT gr with
  | some _ => st
  | none =>
    let k := freshKey st
    { st with
      tSt := st.tSt ++ [(k, gr)],
      thT := st.thT ++ [(gr, k)],
      cDb := st.cDb ++ [k] }

/-- Mirrors `LmdbStore.remove_graph` (lines 693–705): remove all triples of
the context, then delete the context key from `c:`.  The final
`_to_key(graph)` is handed to `cursor.set_key`, so a graph term that is
not internedraises `TypeError` (`none`). -/
def removeGraph (st : StoreState Term) (gr : Term) : Option (StoreState Term) :=
  match removeQ st (none, none, none) (some gr) with
  | none => none
  | some st1 =>
    match toKey st1 gr with
    | none => none
    | some ck => some { st1 with cDb := st1.cDb.filter (fun k => k ≠ ck) }

/-! ## Pattern matching predicates and concrete scenario states -/

/-- Key-level pattern match: every bound term of the pattern is interned
and its key equals the corresponding component of the triple key. -/
def keyMatchesB (st : StoreState Term)
    (pat : Option Term × Option Term × Option Term) (spok : TripleKey) : Bool :=
  (match pat.1 with
   | none => true
   | some t => toKey st t = some spok.1) &&
  (match pat.2.1 with
   | none => true
   | some t => toKey st t = some spok.2.1) &&
  (match pat.2.2 with
   | none => true
   | some t => toKey st t = some spok.2.2)

/-- Term-level pattern match: bound positions are equal, unbound positions
arbitrary. -/
def termMatches (pat : Option Term × Option Term × Option Term)
    (tr : Term × Term × Term) : Prop :=
  (∀ t, pat.1 = some t → tr.1 = t) ∧
  (∀ t, pat.2.1 = some t → tr.2.1 = t) ∧
  (∀ t, pat.2.2 = some t → tr.2.2 = t)

/-- A triple key resolves (through `t:st`) to the given term triple. -/
def resolvesTo (st : StoreState Term) (spok : TripleKey)
    (tr : Term × Term × Term) : Prop :=
  (spok.1, tr.1) ∈ st.tSt ∧ (spok.2.1, tr.2.1) ∈ st.tSt ∧
    (spok.2.2, tr.2.2) ∈ st.tSt

/-- State of end-to-end scenario 3 (context separation) with
default graph `0`, `g1 = 10`, `g2 = 11`, `t1 = (1,2,3)`, `t2 = (4,5,6)`:
`addGraph(g1); add(t1, g1); add(t1, g2); add(t2)`. -/
def ctxScenario : StoreState Nat :=
  addQuad 0
    (addQuad 0
      (addQuad 0 (addGraph emptyStore 10) (1, 2, 3) (some 10))
      (1, 2, 3) (some 11))
    (4, 5, 6) none

/-- State used by the C2/C3 exhibits: the triple `(2,3,4)` present in two
contexts. -/
def twoCtxState : StoreState Nat :=
  addQuad 0 (addQuad 0 emptyStore (2, 3, 4) (some 10)) (2, 3, 4) (some 11)

/-- C3: after `add(t, g1); add(t, g2); remove(t, g1)` the triple key still
has the context association for `g2` in `spo:c`, yet all three lookup
indices have lost their entries for it — `remove` calls
`_index_triple('remove', spok)` unconditionally, contradicting the
invariant that lookup entries survive while any context references the
triple key. -/
theorem remove_drops_lookup_index_bug :
    (removeQ twoCtxState (some 2, some 3, some 4) (some 10)).map
      (fun s => (s.spoC.any (fun e => e.1 = (1, 2, 3)), s.sPo, s.pSo, s.oSp)) =
    some (true, [], [], []) := by
  rfl

/-- C2 counterexample: with the triple already stored under another named
graph, `add(q); add(q); remove(q)` for a quad `q` in the default graph
leaves `contains(q)` true — a default-graph containment check is treated
as a query with no context and matches the surviving association. -/
theorem add_remove_default_ctx_cex :
    (removeQ
        (addQuad 0 (addQuad 0 (addQuad 0 (emptyStore : StoreState Nat)
          (2, 3, 4) (some 1)) (2, 3, 4) (some 0)) (2, 3, 4) (some 0))
        (some 2, some 3, some 4) (some 0)).map
      (fun s => containsQuad 0 s (2, 3, 4) (some 0)) = some true := by
  rfl

/-- C5 counterexample: in the context-separation scenario, the
default-graph query `triples((*,*,*), defaultGraph)` also yields `t1`
(which is only in `g1` and `g2`), not exactly `{t2}` as claimed —
`triples` maps a default-graph context to `None` and matches any
context. -/
theorem context_separation_cex :
    some ((1, 2, 3) : Nat × Nat × Nat) ∈
      ((triplesKeys 0 ctxScenario (none, none, none) (some 0)).getD []).map
        (fromKey ctxScenario) ∧
    ((1, 2, 3) : Nat × Nat × Nat) ≠ (4, 5, 6) := by
  decide

/-- C5 (corrected): after `addGraph(g1); add(t1, g1); add(t1, g2); add(t2)`
the query scoped to `g1` yields exactly `{t1}`; the query scoped to the
default graph is treated as a no-context query and yields `{t1, t2}`; and
after `removeGraph(g1)` the no-context query still yields `{t1, t2}` —
`t1` survives in `g2`. -/
theorem context_separation_amended :
    (triplesKeys 0 ctxScenario (none, none, none) (some 10)).map
      (fun l => l.map (fromKey ctxScenario)) = some [some (1, 2, 3)] ∧
    (triplesKeys 0 ctxScenario (none, none, none) (some 0)).map
      (fun l => l.map (fromKey ctxScenario)) =
      some [some (1, 2, 3), some (4, 5, 6)] ∧
    (removeGraph ctxScenario 10).map
      (fun st5 => (triplesKeys 0 st5 (none, none, none) none).map
        (fun l => l.map (fromKey st5))) =
      some (some [some (1, 2, 3), some (4, 5, 6)]) := by
  exact ⟨rfl, rfl, rfl⟩

/-- C1 counterexample: a fully bound pattern containing a term that is not
interned makes `_lookup` pass `None` to `cursor.set_key` (a `TypeError`,
modelled by `none`) instead of yielding the empty match set — and the
match set is indeed empty: no stored triple key matches the pattern. -/
theorem lookup_fully_bound_raises_cex :
    lookupE twoCtxState (some 99, some 3, some 4) = none ∧
    twoCtxState.spoC.all
      (fun e => ¬ keyMatchesB twoCtxState (some 99, some 3, some 4) e.1) =
      true := by
  decide

/-- C10: `remove` called with a context term that is not interned returns
before touching any database: the store state is unchanged. -/
theorem remove_unknown_ctx_noop (st : StoreState Term)
    (pat : Option Term × Option Term × Option Term) (c : Term)
    (h : assocGet st.thT c = none) :
    removeQ st pat (some c) = some st := by
  have hstep : removeQ st pat (some c) =
      (match assocGet st.thT c with
       | none => some st
       | some ck =>
         match tripleKeysE st pat (some c) with
         | none => none
         | some spoks =>
           some ((spoks.dedup.foldl
             (fun acc spok => removeOne acc.1 acc.2 spok) (st, some ck)).1)) := rfl
  rw [hstep, h]

/-- Witness for `remove_unknown_ctx_noop`. -/
theorem remove_unknown_ctx_noop_witness :
    assocGet (emptyStore : StoreState Nat).thT 7 = none ∧
    removeQ (emptyStore : StoreState Nat) (some 1, none, none) (some 7) =
      some emptyStore :=
  ⟨rfl, remove_unknown_ctx_noop emptyStore (some 1, none, none) 7 rfl⟩

/-! ## Resource retrieval: `SimpleLayout.extract_imr`
(simple_layout.py lines 33–95)

Nodes are coded as `Nat`; the graph is a triple list.  With the default
options (`incl_inbound=False`, `incl_children=True`, `embed_children=False`,
`incl_srv_mgd=True`) the CONSTRUCT query returns exactly the triples whose
subject is the requested URI.  `rsrc[RDF.type : X]` is a membership test,
and `rsrc.value(p)` returns the object of the first matching triple.
-/

def rdfTypeN : Nat := 100
def fcsysTombstoneType : Nat := 101
def fcsysTombstonePred : Nat := 102
def fcrepoCreatedN : Nat := 103

/-- Outcome of `extract_imr`: the resource graph, `ResourceNotExistsError`
(NOT_FOUND), `TombstoneError` (GONE, with the creation timestamp), or the
Python `NameError` raised by the undefined name `tombstone_rsrc` on
line 93. -/
inductive ImrOutcome
  | ok (g : List (Nat × Nat × Nat))
  | notExistsError
  | tombstoneError (uri : Nat) (created : Option Nat)
  | nameError
  deriving DecidableEq

/-- rdflib `Resource.value`: the object of the first `(s, p, ?o)` triple. -/
def rsrcValue (g : List (Nat × Nat × Nat)) (s p : Nat) : Option Nat :=
  ((g.filter (fun t => t.1 = s ∧ t.2.1 = p)).map (fun t => t.2.2)).head?

/-- Mirrors `SimpleLayout.extract_imr` with default options: strict
emptiness check, then the two tombstone checks.  In the second branch the
source evaluates `tombstone_rsrc.value(nsc['fcrepo'].created)` where
`tombstone_rsrc` is an undefined name, so Python raises `NameError`
instead of the intended `TombstoneError`. -/
def extract_imr (ds : List (Nat × Nat × Nat)) (uri : Nat) (strict : Bool) :
    ImrOutcome :=
  let g := ds.filter (fun t => t.1 = uri)
  if strict && g.isEmpty then .notExistsError
  else if (uri, rdfTypeN, fcsysTombstoneType) ∈ g then
    .tombstoneError uri (rsrcValue g uri fcrepoCreatedN)
  else if (rsrcValue g uri fcsysTombstonePred).isSome then
    .nameError
  else .ok g

/-- C6: `extract_imr` in strict mode raises NOT_FOUND on an empty resource
graph and GONE (with the tombstone's `fcrepo:created` timestamp) on a
`fcsystem:Tombstone`-typed resource, but on a resource marked only by a
`fcsystem:tombstone` pointer to an ancestor tombstone it raises `NameError`
— the branch reads the undefined name `tombstone_rsrc` — instead of the
claimed GONE error. -/
theorem extract_imr_tombstone_bug :
    extract_imr [] 7 true = .notExistsError ∧
    extract_imr [(7, rdfTypeN, fcsysTombstoneType), (7, fcrepoCreatedN, 9)]
      7 true = .tombstoneError 7 (some 9) ∧
    extract_imr [(7, fcsysTombstonePred, 8), (8, rdfTypeN, fcsysTombstoneType),
      (8, fcrepoCreatedN, 9)] 7 true = .nameError := by
  exact ⟨rfl, rfl, rfl⟩

/-! ## Graph checksum: `Toolbox.rdf_cksum` (toolbox.py lines 224–250)
and the digest triple set by `Ldpr._add_srv_mgd_triples`
(ldpr.py lines 846–849)

RDF terms here distinguish URIs, literals and rdflib `Variable`s — the
latter because `rdf_cksum` passes `Variable('s')` and `Variable('o')` to
`Graph.remove`, where a non-`None` term is matched concretely, not as a
wildcard.
-/

inductive RTerm
  | uri (n : Nat)
  | vvar (n : Nat)
  | lit (n : Nat)
  deriving DecidableEq

/-- Graph.remove with all three positions bound removes exactly that
triple. -/
def graphRemove (g : List (RTerm × RTerm × RTerm)) (t : RTerm × RTerm × RTerm) :
    List (RTerm × RTerm × RTerm) :=
  g.filter (fun x => x ≠ t)

def RTerm.code : RTerm → Nat × Nat
  | .uri n => (0, n)
  | .vvar n => (1, n)
  | .lit n => (2, n)

/-- A total order on terms standing in for rdflib term ordering; `sorted`
in `rdf_cksum` orders triples by (subject, predicate, object). -/
def RTerm.leB (a b : RTerm) : Bool :=
  a.code.1 < b.code.1 || (a.code.1 = b.code.1 && a.code.2 ≤ b.code.2)

def tripLeB (a b : RTerm × RTerm × RTerm) : Bool :=
  (a.1.leB b.1 && !(b.1.leB a.1)) ||
  (a.1.leB b.1 && b.1.leB a.1 &&
    ((a.2.1.leB b.2.1 && !(b.2.1.leB a.2.1)) ||
     (a.2.1.leB b.2.1 && b.2.1.leB a.2.1 && a.2.2.leB b.2.2)))

def insertSorted {α : Type} (le : α → α → Bool) (a : α) : List α → List α
  | [] => [a]
  | b :: t => if le a b then a :: b :: t else b :: insertSorted le a t

def isort {α : Type} (le : α → α → Bool) : List α → List α
  | [] => []
  | a :: t => insertSorted le a (isort le t)

/-- rdflib Variables `?s` and `?o` as used in `rdf_cksum`. -/
def varS : RTerm := .vvar 0
def varO : RTerm := .vvar 1

/-- `premis:messageDigest` — the predicate `rdf_cksum` tries to remove. -/
def premisMessageDigest : RTerm := .uri 50

/-- `premis:hasMessageDigest` — the predicate under which
`_add_srv_mgd_triples` actually stores the digest. -/
def premisHasMessageDigest : RTerm := .uri 51

/-- Mirrors `Toolbox.rdf_cksum` up to the pickle/SHA1 step: the triple list
whose pickle is hashed.  The `gr.remove` call targets the single concrete
triple `(Variable('s'), premis:messageDigest, Variable('o'))`; the result
is then sorted by (subject, predicate, object). -/
def rdf_cksum_input (g : List (RTerm × RTerm × RTerm)) :
    List (RTerm × RTerm × RTerm) :=
  isort tripLeB (graphRemove g (varS, premisMessageDigest, varO))

/-- C7: the checksum stored by a create-or-replace write is computed over a
graph that still contains the previous `premis:hasMessageDigest` triple:
the removal in `rdf_cksum` targets the predicate `premis:messageDigest`
(not `hasMessageDigest`) with concrete `Variable` terms (not wildcards),
so it removes nothing — here, a provided graph carrying its old digest
keeps it in the hashed list, and the list is unchanged in size. -/
theorem rdf_cksum_digest_not_removed_bug :
    (RTerm.uri 1, premisHasMessageDigest, RTerm.uri 60) ∈
      rdf_cksum_input [(RTerm.uri 1, premisHasMessageDigest, RTerm.uri 60),
        (RTerm.uri 1, RTerm.uri 2, RTerm.uri 3)] ∧
    (rdf_cksum_input [(RTerm.uri 1, premisHasMessageDigest, RTerm.uri 60),
        (RTerm.uri 1, RTerm.uri 2, RTerm.uri 3)]).length = 2 := by
  exact ⟨by decide, rfl⟩

/-! ## Pairtree creation: `Ldpr._find_parent_or_create_pairtree` and
`Ldpr._create_path_segment` (ldpr.py lines 891–971)

A UID is modelled as its list of path segments (the source holds the
`'/'`-joined string and splits it); the root UID is the empty list.
`fwd_search_order` accumulates the proper path ancestors shortest-first;
the walk then visits them deepest-first, collecting missing segments until
an existing resource (or the root) is found.
-/

inductive PNode
  | fcres (uid : List Nat)
  | rdfType
  | ldpContains
  | fcsysContains
  | fcrepoHasParent
  | ldpContainer
  | ldpBasicContainer
  | ldpRDFSource
  | fcrepoPairtree
  deriving DecidableEq

/-- `fwd_search_order`: for `a/b/c/d` this is `a`, `a/b`, `a/b/c` —
all proper path ancestors, shortest first. -/
def ancestorChain (uid : List Nat) : List (List Nat) :=
  (List.range (uid.length - 1)).map (fun i => uid.take (i + 1))

/-- The search loop of `_find_parent_or_create_pairtree`: walk candidate
parents deepest-first; break at the first existing one, collecting
`(segment, child)` pairs for the missing ones; the default parent is the
root (the empty UID). -/
def findParentLoop (exsts : List Nat → Bool) :
    List (List Nat) → List Nat → List Nat × List (List Nat × List Nat)
  | [], _ => ([], [])
  | cp :: rest, cur =>
    if exsts cp then (cp, [])
    else
      let r := findParentLoop exsts rest cp
      (r.1, (cp, cur) :: r.2)

/-- Mirrors `_find_parent_or_create_pairtree`: for a single-segment UID the
parent is the root and no pairtree segment is created; otherwise run the
search loop over the reversed ancestor chain.  Returns the parent UID and
the `(uid, child_uid)` pairs later fed to `_create_path_segment` (with the
found parent as `real_parent_uid`). -/
def findParentOrCreatePairtree (exsts : List Nat → Bool) (uid : List Nat) :
    List Nat × List (List Nat × List Nat) :=
  if uid.length < 2 then ([], [])
  else findParentLoop exsts (ancestorChain uid).reverse uid

/-- Mirrors `_create_path_segment`: the triples added for one pairtree
segment (`self.urn` is the final resource being created). -/
def createPathSegment (uid childUid realParentUid finalUid : List Nat) :
    List (PNode × PNode × PNode) :=
  [(.fcres uid, .fcsysContains, .fcres childUid),
   (.fcres uid, .ldpContains, .fcres finalUid),
   (.fcres uid, .rdfType, .ldpContainer),
   (.fcres uid, .rdfType, .ldpBasicContainer),
   (.fcres uid, .rdfType, .ldpRDFSource),
   (.fcres uid, .rdfType, .fcrepoPairtree),
   (.fcres uid, .fcrepoHasParent, .fcres realParentUid)]

theorem findParentLoop_spec (exsts : List Nat → Bool) :
    ∀ (l : List (List Nat)) (cur : List Nat),
      findParentLoop exsts l cur =
        (((l.find? exsts).getD []),
         (l.takeWhile (fun p => !exsts p)).zip (cur :: l)) := by
  intro l
  induction l with
  | nil => intro cur; simp [findParentLoop]
  | cons cp rest ih =>
    intro cur
    rw [findParentLoop]
    by_cases h : exsts cp
    · simp [h, List.find?, List.takeWhile]
    · have hb : exsts cp = false := by simpa using h
      simp only [hb, Bool.false_eq_true, if_false, ih cp, List.find?_cons,
        List.takeWhile_cons, Bool.not_false, if_true, List.zip_cons_cons]

/-- C8: when a resource is created at a multi-segment UID, the parent is
the deepest existing proper ancestor (the root if none exists); the
pairtree segments created are exactly the missing ancestors above that
parent, deepest first, each paired with its next-deeper path (the new
resource for the deepest); a single-segment UID gets the root as parent
with no pairtree segments; and each created segment carries exactly the
four types `ldp:Container`, `ldp:BasicContainer`, `ldp:RDFSource`,
`fcrepo:Pairtree`, an `fcsystem:contains` edge to its child segment, an
`ldp:contains` edge to the final resource, and `fcrepo:hasParent` to the
found parent. -/
theorem pairtree_creation_correct (exsts : List Nat → Bool) (uid : List Nat)
    (h2 : 2 ≤ uid.length) :
    (findParentOrCreatePairtree exsts uid).1 =
      (((ancestorChain uid).reverse.find? exsts).getD []) ∧
    (findParentOrCreatePairtree exsts uid).2 =
      ((ancestorChain uid).reverse.takeWhile (fun p => !exsts p)).zip
        (uid :: (ancestorChain uid).reverse) ∧
    (∀ v : List Nat, v.length = 1 → findParentOrCreatePairtree exsts v = ([], [])) ∧
    (∀ seg ∈ (findParentOrCreatePairtree exsts uid).2,
      (∀ n, (PNode.fcres seg.1, PNode.rdfType, n) ∈
          createPathSegment seg.1 seg.2 (findParentOrCreatePairtree exsts uid).1 uid ↔
        (n = PNode.ldpContainer ∨ n = PNode.ldpBasicContainer ∨
         n = PNode.ldpRDFSource ∨ n = PNode.fcrepoPairtree)) ∧
      (PNode.fcres seg.1, PNode.fcsysContains, PNode.fcres seg.2) ∈
        createPathSegment seg.1 seg.2 (findParentOrCreatePairtree exsts uid).1 uid ∧
      (PNode.fcres seg.1, PNode.ldpContains, PNode.fcres uid) ∈
        createPathSegment seg.1 seg.2 (findParentOrCreatePairtree exsts uid).1 uid ∧
      (∀ p, (PNode.fcres seg.1, PNode.fcrepoHasParent, p) ∈
          createPathSegment seg.1 seg.2 (findParentOrCreatePairtree exsts uid).1 uid ↔
        p = PNode.fcres (findParentOrCreatePairtree exsts uid).1)) := by
  have hloop := findParentLoop_spec exsts (ancestorChain uid).reverse uid
  have hexp : findParentOrCreatePairtree exsts uid =
      findParentLoop exsts (ancestorChain uid).reverse uid := by
    unfold findParentOrCreatePairtree
    rw [if_neg (by omega)]
  refine ⟨?_, ?_, ?_, ?_⟩
  · rw [hexp, hloop]
  · rw [hexp, hloop]
  · intro v hv
    unfold findParentOrCreatePairtree
    rw [if_pos (by omega)]
  · intro seg hseg
    refine ⟨?_, ?_, ?_, ?_⟩
    · intro n
      simp [createPathSegment]
    · simp [createPathSegment]
    · simp [createPathSegment]
    · intro p
      simp [createPathSegment]

/-- Witness for `pairtree_creation_correct`: creating `1/2/3` with only
the resource `1` existing makes `1` the parent and creates the single
missing segment `1/2` with child `1/2/3`. -/
theorem pairtree_creation_correct_witness :
    2 ≤ ([1, 2, 3] : List Nat).length ∧
    (findParentOrCreatePairtree (fun u => u = [1]) [1, 2, 3]).1 =
      ((((ancestorChain [1, 2, 3]).reverse).find? (fun u => u = [1])).getD []) :=
  ⟨by decide, (pairtree_creation_correct (fun u => u = [1]) [1, 2, 3]
    (by decide)).1⟩

/-! ## Transactions: `TxnManager` (lmdb_store.py lines 35–67) and the
`atomic` decorator (ldpr.py lines 31–58)

A store with its transaction handle: `committed` is the state visible to
transactions begun later; `pending` holds the open transaction's view
(LMDB buffers writes in the transaction until commit).  `commit` publishes
the pending state; `rollback`/`abort` discards it.
-/

structure TxStore (σ : Type) where
  committed : σ
  pending : Option σ
  deriving DecidableEq

/-- `LmdbStore.begin`: open a transaction on the current committed
snapshot. -/
def beginTxn {σ : Type} (st : TxStore σ) : TxStore σ :=
  { st with pending := some st.committed }

/-- `LmdbStore.commit`: publish the open transaction, if any. -/
def commitTxn {σ : Type} (st : TxStore σ) : TxStore σ :=
  { committed := st.pending.getD st.committed, pending := none }

/-- `LmdbStore.rollback`: abort the open transaction. -/
def rollbackTxn {σ : Type} (st : TxStore σ) : TxStore σ :=
  { st with pending := none }

/-- A `TxnManager` scope around a body that transforms the transaction
state or raises: `__enter__` begins the transaction, `__exit__` commits on
normal exit and rolls back when an exception is propagating. -/
def runTxnScope {σ ε : Type} (body : σ → Except ε σ) (st : TxStore σ) :
    TxStore σ × Option ε :=
  let opened := beginTxn st
  match body st.committed with
  | .error e => (rollbackTxn opened, some e)
  | .ok s1 => (commitTxn { opened with pending := some s1 }, none)

/-- The `atomic` decorator: reset `request.changelog`, run the wrapped
operation; on an exception roll back the store transaction and re-raise
(dispatching nothing); on success commit and then dispatch every changelog
record. -/
def runAtomic {σ ε ev : Type} (body : σ → Except ε (σ × List ev))
    (st : TxStore σ) : TxStore σ × List ev × Option ε :=
  match body st.committed with
  | .error e => (rollbackTxn (beginTxn st), [], some e)
  | .ok (s1, log) => (commitTxn { beginTxn st with pending := some s1 }, log, none)

/-- C9: if the body of a write-transaction scope raises, the transaction is
rolled back: the committed state is unchanged, a transaction begun
afterwards sees the original state, and (for an `atomic` resource
operation) no event message is dispatched. -/
theorem txn_rollback_on_error {σ ε ev : Type} (body : σ → Except ε σ)
    (abody : σ → Except ε (σ × List ev)) (st : TxStore σ) (e e2 : ε)
    (h : body st.committed = .error e)
    (h2 : abody st.committed = .error e2) :
    (runTxnScope body st).1.committed = st.committed ∧
    (runTxnScope body st).1.pending = none ∧
    (beginTxn (runTxnScope body st).1).pending = some st.committed ∧
    (runAtomic abody st).1.committed = st.committed ∧
    (runAtomic abody st).2.1 = [] ∧
    (beginTxn (runAtomic abody st).1).pending = some st.committed := by
  unfold runTxnScope runAtomic
  rw [h, h2]
  exact ⟨rfl, rfl, rfl, rfl, rfl, rfl⟩

/-- Witness for `txn_rollback_on_error`. -/
theorem txn_rollback_on_error_witness :
    ((fun _ : Nat => (Except.error 0 : Except Nat Nat)) 5 = .error 0) ∧
    (runTxnScope (fun _ : Nat => (Except.error 0 : Except Nat Nat))
      (TxStore.mk 5 none)).1.committed = 5 :=
  ⟨rfl, (txn_rollback_on_error (fun _ => .error 0)
    (fun _ : Nat => (Except.error 0 : Except Nat (Nat × List Nat)))
    (TxStore.mk 5 none) 0 0 rfl rfl).1⟩

/-! ## C1: exactness of `_lookup` over a well-formed store

`WfStore` is the store invariant the claims presuppose: `th:t` and `t:st`
are mutually inverse 1:1 maps, and the three lookup indices cover exactly
the triple keys holding at least one context association in `spo:c`. -/

@[reducible] def WfStore (st : StoreState Term) : Prop :=
  (∀ e ∈ st.thT, ∀ e2 ∈ st.thT, e.1 = e2.1 → e.2 = e2.2) ∧
  (∀ e ∈ st.tSt, ∀ e2 ∈ st.tSt, e.1 = e2.1 → e.2 = e2.2) ∧
  (∀ e ∈ st.thT, (e.2, e.1) ∈ st.tSt) ∧
  (∀ e ∈ st.tSt, (e.2, e.1) ∈ st.thT) ∧
  (∀ e ∈ st.spoC, (e.1.1, (e.1.2.1, e.1.2.2)) ∈ st.sPo) ∧
  (∀ e ∈ st.spoC, (e.1.2.1, (e.1.1, e.1.2.2)) ∈ st.pSo) ∧
  (∀ e ∈ st.spoC, (e.1.2.2, (e.1.1, e.1.2.1)) ∈ st.oSp) ∧
  (∀ e ∈ st.sPo, ∃ e2 ∈ st.spoC, e2.1 = (e.1, e.2.1, e.2.2)) ∧
  (∀ e ∈ st.pSo, ∃ e2 ∈ st.spoC, e2.1 = (e.2.1, e.1, e.2.2)) ∧
  (∀ e ∈ st.oSp, ∃ e2 ∈ st.spoC, e2.1 = (e.2.1, e.2.2, e.1)) ∧
  (∀ e ∈ st.spoC, (∃ p ∈ st.tSt, p.1 = e.1.1) ∧
    (∃ p ∈ st.tSt, p.1 = e.1.2.1) ∧ (∃ p ∈ st.tSt, p.1 = e.1.2.2))

theorem mem_dups_iff {α β : Type} [DecidableEq α]
    (l : List (α × β)) (k : α) (b : β) :
    b ∈ dups l k ↔ ∃ e ∈ l, e.1 = k ∧ e.2 = b := by
  unfold dups
  simp only [List.mem_map, List.mem_filter, decide_eq_true_eq]
  constructor
  · rintro ⟨e, ⟨he, hk⟩, hb⟩
    exact ⟨e, he, hk, hb⟩
  · rintro ⟨e, he, hk, hb⟩
    exact ⟨e, ⟨he, hk⟩, hb⟩

theorem toKey3_eq_some_iff (st : StoreState Term) (s p o : Term)
    (k : TripleKey) :
    toKey3 st (s, p, o) = some k ↔
      toKey st s = some k.1 ∧ toKey st p = some k.2.1 ∧
        toKey st o = some k.2.2 := by
  rcases k with ⟨a, b, c⟩
  unfold toKey3
  cases h1 : toKey st s <;> cases h2 : toKey st p <;> cases h3 : toKey st o <;>
    simp

theorem keyMatchesB_iff (st : StoreState Term)
    (pat : Option Term × Option Term × Option Term) (spok : TripleKey) :
    keyMatchesB st pat spok = true ↔
      ((∀ t, pat.1 = some t → toKey st t = some spok.1) ∧
       (∀ t, pat.2.1 = some t → toKey st t = some spok.2.1) ∧
       (∀ t, pat.2.2 = some t → toKey st t = some spok.2.2)) := by
  rcases pat with ⟨p1, p2, p3⟩
  cases p1 <;> cases p2 <;> cases p3 <;> simp [keyMatchesB, and_assoc]

theorem mem_lookup1boundS_iff (st : StoreState Term) (hwf : WfStore st)
    (s : Term) (spok : TripleKey) :
    spok ∈ lookup1boundS st s ↔
      (∃ e ∈ st.spoC, e.1 = spok) ∧ toKey st s = some spok.1 := by
  obtain ⟨hthF, htsF, hthT, htsT, hcs, hcp, hco, hsc, hpc, hoc, hint⟩ := hwf
  rcases spok with ⟨a, b, c⟩
  unfold lookup1boundS
  cases hk : toKey st s with
  | none => simp
  | some k =>
    simp only [List.mem_map, Option.some.injEq]
    constructor
    · rintro ⟨po, hpo, heq⟩
      rw [mem_dups_iff] at hpo
      obtain ⟨e, he, hek, hev⟩ := hpo
      obtain ⟨ha, hb, hc⟩ : k = a ∧ po.1 = b ∧ po.2 = c := by
        have h1 := congrArg Prod.fst heq
        have h2 := congrArg (fun x => x.2.1) heq
        have h3 := congrArg (fun x => x.2.2) heq
        exact ⟨h1, h2, h3⟩
      obtain ⟨e2, he2, he2eq⟩ := hsc e he
      refine ⟨⟨e2, he2, ?_⟩, ha⟩
      rw [he2eq, hek, hev, ha, hb, hc]
    · rintro ⟨⟨e, he, heq⟩, hka⟩
      have hka2 : k = a := by simpa using hka
      have hmem := hcs e he
      rw [heq] at hmem
      refine ⟨(b, c), ?_, by rw [hka2]⟩
      rw [mem_dups_iff]
      exact ⟨(a, (b, c)), by simpa [hka2] using hmem, by rw [hka2], rfl⟩

theorem mem_lookup1boundP_iff (st : StoreState Term) (hwf : WfStore st)
    (p : Term) (spok : TripleKey) :
    spok ∈ lookup1boundP st p ↔
      (∃ e ∈ st.spoC, e.1 = spok) ∧ toKey st p = some spok.2.1 := by
  obtain ⟨hthF, htsF, hthT, htsT, hcs, hcp, hco, hsc, hpc, hoc, hint⟩ := hwf
  rcases spok with ⟨a, b, c⟩
  unfold lookup1boundP
  cases hk : toKey st p with
  | none => simp
  | some k =>
    simp only [List.mem_map, Option.some.injEq]
    constructor
    · rintro ⟨so, hso, heq⟩
      rw [mem_dups_iff] at hso
      obtain ⟨e, he, hek, hev⟩ := hso
      obtain ⟨ha, hb, hc⟩ : so.1 = a ∧ k = b ∧ so.2 = c := by
        have h1 := congrArg Prod.fst heq
        have h2 := congrArg (fun x => x.2.1) heq
        have h3 := congrArg (fun x => x.2.2) heq
        exact ⟨h1, h2, h3⟩
      obtain ⟨e2, he2, he2eq⟩ := hpc e he
      refine ⟨⟨e2, he2, ?_⟩, hb⟩
      rw [he2eq, hek, hev, ha, hb, hc]
    · rintro ⟨⟨e, he, heq⟩, hkb⟩
      have hkb2 : k = b := by simpa using hkb
      have hmem := hcp e he
      rw [heq] at hmem
      refine ⟨(a, c), ?_, by rw [hkb2]⟩
      rw [mem_dups_iff]
      exact ⟨(b, (a, c)), by simpa [hkb2] using hmem, by rw [hkb2], rfl⟩

theorem mem_lookup1boundO_iff (st : StoreState Term) (hwf : WfStore st)
    (o : Term) (spok : TripleKey) :
    spok ∈ lookup1boundO st o ↔
      (∃ e ∈ st.spoC, e.1 = spok) ∧ toKey st o = some spok.2.2 := by
  obtain ⟨hthF, htsF, hthT, htsT, hcs, hcp, hco, hsc, hpc, hoc, hint⟩ := hwf
  rcases spok with ⟨a, b, c⟩
  unfold lookup1boundO
  cases hk : toKey st o with
  | none => simp
  | some k =>
    simp only [List.mem_map, Option.some.injEq]
    constructor
    · rintro ⟨sp, hsp, heq⟩
      rw [mem_dups_iff] at hsp
      obtain ⟨e, he, hek, hev⟩ := hsp
      obtain ⟨ha, hb, hc⟩ : sp.1 = a ∧ sp.2 = b ∧ k = c := by
        have h1 := congrArg Prod.fst heq
        have h2 := congrArg (fun x => x.2.1) heq
        have h3 := congrArg (fun x => x.2.2) heq
        exact ⟨h1, h2, h3⟩
      obtain ⟨e2, he2, he2eq⟩ := hoc e he
      refine ⟨⟨e2, he2, ?_⟩, hc⟩
      rw [he2eq, hek, hev, ha, hb, hc]
    · rintro ⟨⟨e, he, heq⟩, hkc⟩
      have hkc2 : k = c := by simpa using hkc
      have hmem := hco e he
      rw [heq] at hmem
      refine ⟨(a, b), ?_, by rw [hkc2]⟩
      rw [mem_dups_iff]
      exact ⟨(c, (a, b)), by simpa [hkc2] using hmem, by rw [hkc2], rfl⟩

theorem mem_lookup2boundSP_iff (st : StoreState Term) (hwf : WfStore st)
    (s p : Term) (spok : TripleKey) :
    spok ∈ lookup2boundSP st s p ↔
      (∃ e ∈ st.spoC, e.1 = spok) ∧ toKey st s = some spok.1 ∧
        toKey st p = some spok.2.1 := by
  obtain ⟨hthF, htsF, hthT, htsT, hcs, hcp, hco, hsc, hpc, hoc, hint⟩ := hwf
  rcases spok with ⟨a, b, c⟩
  unfold lookup2boundSP
  cases hk : toKey st s with
  | none => simp
  | some ks =>
    cases hk2 : toKey st p with
    | none => simp
    | some kp =>
      simp only [List.mem_map, List.mem_filter, Option.some.injEq,
        decide_eq_true_eq]
      constructor
      · rintro ⟨po, ⟨hpo, hpofst⟩, heq⟩
        rw [mem_dups_iff] at hpo
        obtain ⟨e, he, hek, hev⟩ := hpo
        obtain ⟨ha, hb, hc⟩ : ks = a ∧ kp = b ∧ po.2 = c := by
          have h1 := congrArg Prod.fst heq
          have h2 := congrArg (fun x => x.2.1) heq
          have h3 := congrArg (fun x => x.2.2) heq
          exact ⟨h1, h2, h3⟩
        obtain ⟨e2, he2, he2eq⟩ := hsc e he
        refine ⟨⟨e2, he2, ?_⟩, ha, hb⟩
        rw [he2eq, hek, hev, ha, hc, ← hb, hpofst]
      · rintro ⟨⟨e, he, heq⟩, hka, hkb⟩
        have hmem := hcs e he
        rw [heq] at hmem
        refine ⟨(b, c), ⟨?_, by rw [hkb]⟩, by rw [hka, hkb]⟩
        rw [mem_dups_iff]
        exact ⟨(a, (b, c)), by simpa [hka] using hmem, by rw [hka], rfl⟩

theorem mem_lookup2boundSO_iff (st : StoreState Term) (hwf : WfStore st)
    (s o : Term) (spok : TripleKey) :
    spok ∈ lookup2boundSO st s o ↔
      (∃ e ∈ st.spoC, e.1 = spok) ∧ toKey st s = some spok.1 ∧
        toKey st o = some spok.2.2 := by
  obtain ⟨hthF, htsF, hthT, htsT, hcs, hcp, hco, hsc, hpc, hoc, hint⟩ := hwf
  rcases spok with ⟨a, b, c⟩
  unfold lookup2boundSO
  cases hk : toKey st s with
  | none => simp
  | some ks =>
    cases hk2 : toKey st o with
    | none => simp
    | some ko =>
      simp only [List.mem_map, List.mem_filter, Option.some.injEq,
        decide_eq_true_eq]
      constructor
      · rintro ⟨po, ⟨hpo, hposnd⟩, heq⟩
        rw [mem_dups_iff] at hpo
        obtain ⟨e, he, hek, hev⟩ := hpo
        obtain ⟨ha, hb, hc⟩ : ks = a ∧ po.1 = b ∧ ko = c := by
          have h1 := congrArg Prod.fst heq
          have h2 := congrArg (fun x => x.2.1) heq
          have h3 := congrArg (fun x => x.2.2) heq
          exact ⟨h1, h2, h3⟩
        obtain ⟨e2, he2, he2eq⟩ := hsc e he
        refine ⟨⟨e2, he2, ?_⟩, ha, hc⟩
        rw [he2eq, hek, hev, ha, hb, ← hc, hposnd]
      · rintro ⟨⟨e, he, heq⟩, hka, hkc⟩
        have hmem := hcs e he
        rw [heq] at hmem
        refine ⟨(b, c), ⟨?_, by rw [hkc]⟩, by rw [hka, hkc]⟩
        rw [mem_dups_iff]
        exact ⟨(a, (b, c)), by simpa [hka] using hmem, by rw [hka], rfl⟩

theorem mem_lookup2boundPO_iff (st : StoreState Term) (hwf : WfStore st)
    (p o : Term) (spok : TripleKey) :
    spok ∈ lookup2boundPO st p o ↔
      (∃ e ∈ st.spoC, e.1 = spok) ∧ toKey st p = some spok.2.1 ∧
        toKey st o = some spok.2.2 := by
  obtain ⟨hthF, htsF, hthT, htsT, hcs, hcp, hco, hsc, hpc, hoc, hint⟩ := hwf
  rcases spok with ⟨a, b, c⟩
  unfold lookup2boundPO
  cases hk : toKey st o with
  | none => simp
  | some ko =>
    cases hk2 : toKey st p with
    | none => simp
    | some kp =>
      simp only [List.mem_map, List.mem_filter, Option.some.injEq,
        decide_eq_true_eq]
      constructor
      · rintro ⟨sp, ⟨hsp, hspsnd⟩, heq⟩
        rw [mem_dups_iff] at hsp
        obtain ⟨e, he, hek, hev⟩ := hsp
        obtain ⟨ha, hb, hc⟩ : sp.1 = a ∧ kp = b ∧ ko = c := by
          have h1 := congrArg Prod.fst heq
          have h2 := congrArg (fun x => x.2.1) heq
          have h3 := congrArg (fun x => x.2.2) heq
          exact ⟨h1, h2, h3⟩
        obtain ⟨e2, he2, he2eq⟩ := hoc e he
        refine ⟨⟨e2, he2, ?_⟩, hb, hc⟩
        rw [he2eq, hek, hev, ha, ← hc, ← hb, hspsnd]
      · rintro ⟨⟨e, he, heq⟩, hkb, hkc⟩
        have hmem := hco e he
        rw [heq] at hmem
        refine ⟨(a, b), ⟨?_, by rw [hkb]⟩, by rw [hkb, hkc]⟩
        rw [mem_dups_iff]
        exact ⟨(c, (a, b)), by simpa [hkc] using hmem, by rw [hkc], rfl⟩

theorem key_to_term_level (st : StoreState Term) (hwf : WfStore st)
    (pat : Option Term × Option Term × Option Term) (r : List TripleKey)
    (hr : ∀ spok : TripleKey, spok ∈ r ↔
      (∃ e ∈ st.spoC, e.1 = spok) ∧ keyMatchesB st pat spok = true) :
    ∀ tr : Term × Term × Term,
      (∃ spok ∈ r, resolvesTo st spok tr) ↔
        ((∃ e ∈ st.spoC, resolvesTo st e.1 tr) ∧ termMatches pat tr) := by
  obtain ⟨hthF, htsF, hthT, htsT, hcs, hcp, hco, hsc, hpc, hoc, hint⟩ := hwf
  intro tr
  constructor
  · rintro ⟨spok, hmem, hres⟩
    rw [hr] at hmem
    obtain ⟨⟨e, he, heq⟩, hkm⟩ := hmem
    rw [keyMatchesB_iff] at hkm
    obtain ⟨hm1, hm2, hm3⟩ := hkm
    refine ⟨⟨e, he, heq ▸ hres⟩, ?_, ?_, ?_⟩
    · intro t hp
      have h2 := assocGet_mem _ _ _ (hm1 t hp)
      have h3 := hthT (t, spok.1) h2
      exact (htsF (spok.1, tr.1) hres.1 (spok.1, t) h3 rfl)
    · intro t hp
      have h2 := assocGet_mem _ _ _ (hm2 t hp)
      have h3 := hthT (t, spok.2.1) h2
      exact (htsF (spok.2.1, tr.2.1) hres.2.1 (spok.2.1, t) h3 rfl)
    · intro t hp
      have h2 := assocGet_mem _ _ _ (hm3 t hp)
      have h3 := hthT (t, spok.2.2) h2
      exact (htsF (spok.2.2, tr.2.2) hres.2.2 (spok.2.2, t) h3 rfl)
  · rintro ⟨⟨e, he, hres⟩, ht1, ht2, ht3⟩
    refine ⟨e.1, ?_, hres⟩
    rw [hr]
    refine ⟨⟨e, he, rfl⟩, ?_⟩
    rw [keyMatchesB_iff]
    refine ⟨?_, ?_, ?_⟩
    · intro t hp
      have h2 := htsT (e.1.1, tr.1) hres.1
      show assocGet st.thT t = some e.1.1
      rw [← ht1 t hp]
      exact assocGet_of_mem _ _ _ hthF h2
    · intro t hp
      have h2 := htsT (e.1.2.1, tr.2.1) hres.2.1
      show assocGet st.thT t = some e.1.2.1
      rw [← ht2 t hp]
      exact assocGet_of_mem _ _ _ hthF h2
    · intro t hp
      have h2 := htsT (e.1.2.2, tr.2.2) hres.2.2
      show assocGet st.thT t = some e.1.2.2
      rw [← ht3 t hp]
      exact assocGet_of_mem _ _ _ hthF h2

/-- C1 (corrected): over a well-formed store queried with no context,
`triples(P)` yields exactly the set of stored triples matching `P` — at
the key level the yielded triple keys are exactly the `spo:c` keys whose
bound positions carry the pattern's interned keys (for two-bound patterns
this goes through the primary index chosen by the static ranking
`(s, o, p)` with the secondary term filtering duplicate values), and the
reassembled keys resolve to exactly the matching stored term triples —
provided the lookup does not raise: a fully bound pattern containing a
non-interned term passes `None` to `cursor.set_key` and raises `TypeError`
instead of yielding the empty set (see the counterexample). -/
theorem lookup_no_ctx_exact (st : StoreState Term) (hwf : WfStore st)
    (pat : Option Term × Option Term × Option Term)
    (hok : lookupE st pat ≠ none) :
    ∃ r, lookupE st pat = some r ∧
      (∀ spok : TripleKey,
        spok ∈ r ↔ (∃ e ∈ st.spoC, e.1 = spok) ∧
          keyMatchesB st pat spok = true) ∧
      (∀ tr : Term × Term × Term,
        (∃ spok ∈ r, resolvesTo st spok tr) ↔
          ((∃ e ∈ st.spoC, resolvesTo st e.1 tr) ∧ termMatches pat tr)) := by
  have main : ∃ r, lookupE st pat = some r ∧
      ∀ spok : TripleKey,
        spok ∈ r ↔ (∃ e ∈ st.spoC, e.1 = spok) ∧
          keyMatchesB st pat spok = true := by
    rcases pat with ⟨p1, p2, p3⟩
    cases p1 with
    | some s =>
      cases p2 with
      | some p =>
        cases p3 with
        | some o =>
          -- fully bound: point probe on spo:c
          cases hk : toKey3 st (s, p, o) with
          | none =>
            exact absurd (by simp [lookupE, hk]) hok
          | some spok0 =>
            rw [toKey3_eq_some_iff] at hk
            obtain ⟨hk1, hk2, hk3⟩ := hk
            refine ⟨if st.spoC.any (fun e => e.1 = spok0) then [spok0] else [],
              ?_, ?_⟩
            · simp only [lookupE, toKey3, toKey] at *
              rw [show assocGet st.thT s = some spok0.1 from hk1,
                show assocGet st.thT p = some spok0.2.1 from hk2,
                show assocGet st.thT o = some spok0.2.2 from hk3]
            · intro spok
              rw [keyMatchesB_iff]
              by_cases hany : st.spoC.any (fun e => e.1 = spok0)
              · rw [if_pos hany]
                simp only [List.any_eq_true, decide_eq_true_eq] at hany
                constructor
                · intro hmem
                  have : spok = spok0 := by simpa using hmem
                  subst this
                  exact ⟨hany, by simp [hk1], by simp [hk2], by simp [hk3]⟩
                · rintro ⟨hst, hm1, hm2, hm3⟩
                  have e1 : spok0.1 = spok.1 := by
                    have := hm1 s rfl
                    rw [hk1] at this
                    simpa using this
                  have e2 : spok0.2.1 = spok.2.1 := by
                    have := hm2 p rfl
                    rw [hk2] at this
                    simpa using this
                  have e3 : spok0.2.2 = spok.2.2 := by
                    have := hm3 o rfl
                    rw [hk3] at this
                    simpa using this
                  have : spok = spok0 := by
                    rcases spok with ⟨x, y, z⟩
                    rcases spok0 with ⟨x0, y0, z0⟩
                    simp only at e1 e2 e3
                    simp [e1, e2, e3]
                  simp [this]
              · rw [if_neg hany]
                simp only [List.any_eq_true, decide_eq_true_eq] at hany
                constructor
                · intro hmem
                  exact absurd hmem (by simp)
                · rintro ⟨hst, hm1, hm2, hm3⟩
                  exfalso
                  have e1 : spok0.1 = spok.1 := by
                    have := hm1 s rfl
                    rw [hk1] at this
                    simpa using this
                  have e2 : spok0.2.1 = spok.2.1 := by
                    have := hm2 p rfl
                    rw [hk2] at this
                    simpa using this
                  have e3 : spok0.2.2 = spok.2.2 := by
                    have := hm3 o rfl
                    rw [hk3] at this
                    simpa using this
                  have hsp : spok = spok0 := by
                    rcases spok with ⟨x, y, z⟩
                    rcases spok0 with ⟨x0, y0, z0⟩
                    simp only at e1 e2 e3
                    simp [e1, e2, e3]
                  obtain ⟨e, he, heq⟩ := hst
                  exact hany ⟨e, he, by rw [heq, hsp]⟩
        | none =>
          -- s p ? : two-bound, primary s:po
          refine ⟨lookup2boundSP st s p, rfl, ?_⟩
          intro spok
          rw [mem_lookup2boundSP_iff st hwf s p spok, keyMatchesB_iff]
          simp
      | none =>
        cases p3 with
        | some o =>
          -- s ? o : two-bound, primary s:po
          refine ⟨lookup2boundSO st s o, rfl, ?_⟩
          intro spok
          rw [mem_lookup2boundSO_iff st hwf s o spok, keyMatchesB_iff]
          simp
        | none =>
          -- s ? ? : one-bound on s:po
          refine ⟨lookup1boundS st s, rfl, ?_⟩
          intro spok
          rw [mem_lookup1boundS_iff st hwf s spok, keyMatchesB_iff]
          simp
    | none =>
      cases p2 with
      | some p =>
        cases p3 with
        | some o =>
          -- ? p o : two-bound, primary o:sp
          refine ⟨lookup2boundPO st p o, rfl, ?_⟩
          intro spok
          rw [mem_lookup2boundPO_iff st hwf p o spok, keyMatchesB_iff]
          simp
        | none =>
          -- ? p ? : one-bound on p:so
          refine ⟨lookup1boundP st p, rfl, ?_⟩
          intro spok
          rw [mem_lookup1boundP_iff st hwf p spok, keyMatchesB_iff]
          simp
      | none =>
        cases p3 with
        | some o =>
          -- ? ? o : one-bound on o:sp
          refine ⟨lookup1boundO st o, rfl, ?_⟩
          intro spok
          rw [mem_lookup1boundO_iff st hwf o spok, keyMatchesB_iff]
          simp
        | none =>
          -- ? ? ? : all keys in spo:c, deduplicated
          refine ⟨_, rfl, ?_⟩
          intro spok
          rw [keyMatchesB_iff]
          simp [List.mem_dedup, List.mem_map, eq_comm]
  obtain ⟨r, hrEq, hkey⟩ := main
  exact ⟨r, hrEq, hkey, key_to_term_level st hwf pat r hkey⟩

/-- Witness for `lookup_no_ctx_exact` on a concrete well-formed store and
the two-bound pattern `(s, ?, o)`. -/
theorem lookup_no_ctx_exact_witness :
    WfStore twoCtxState ∧ lookupE twoCtxState (some 2, none, some 4) ≠ none ∧
    ∃ r, lookupE twoCtxState (some 2, none, some 4) = some r ∧
      (∀ spok : TripleKey,
        spok ∈ r ↔ (∃ e ∈ twoCtxState.spoC, e.1 = spok) ∧
          keyMatchesB twoCtxState (some 2, none, some 4) spok = true) ∧
      (∀ tr : Nat × Nat × Nat,
        (∃ spok ∈ r, resolvesTo twoCtxState spok tr) ↔
          ((∃ e ∈ twoCtxState.spoC, resolvesTo twoCtxState e.1 tr) ∧
            termMatches (some 2, none, some 4) tr)) :=
  ⟨by decide, by decide,
    lookup_no_ctx_exact twoCtxState (by decide) (some 2, none, some 4)
      (by decide)⟩

/-! ## C2: add / contains / remove laws -/

omit [DecidableEq Term] in
theorem storeState_ext {a b : StoreState Term}
    (h1 : a.tSt = b.tSt) (h2 : a.thT = b.thT) (h3 : a.spoC = b.spoC)
    (h4 : a.cDb = b.cDb) (h5 : a.cSpo = b.cSpo) (h6 : a.sPo = b.sPo)
    (h7 : a.pSo = b.pSo) (h8 : a.oSp = b.oSp) : a = b := by
  cases a
  cases b
  simp_all

theorem internTerm_found (st : StoreState Term) (t : Term) (k : Nat)
    (h : assocGet st.thT t = some k) : internTerm st t = (k, st) := by
  unfold internTerm
  rw [h]

theorem internTerm_thT_self (st : StoreState Term) (t : Term) :
    assocGet (internTerm st t).2.thT t = some (internTerm st t).1 := by
  unfold internTerm
  cases h : assocGet st.thT t with
  | some k => simpa using h
  | none =>
    simp only
    exact assocGet_append_self _ _ _ h

theorem internTerm_preserve (st : StoreState Term) (t u : Term) (k : Nat)
    (h : assocGet st.thT u = some k) :
    assocGet (internTerm st t).2.thT u = some k := by
  unfold internTerm
  cases h2 : assocGet st.thT t with
  | some k2 => simpa using h
  | none =>
    simp only
    exact assocGet_append_left _ _ _ _ h

theorem internTerm_dbs (st : StoreState Term) (t : Term) :
    (internTerm st t).2.spoC = st.spoC ∧ (internTerm st t).2.cDb = st.cDb ∧
    (internTerm st t).2.cSpo = st.cSpo ∧ (internTerm st t).2.sPo = st.sPo ∧
    (internTerm st t).2.pSo = st.pSo ∧ (internTerm st t).2.oSp = st.oSp := by
  unfold internTerm
  cases h : assocGet st.thT t <;> simp

theorem internQuad_spec (st : StoreState Term) (tr : Term × Term × Term)
    (c : Term) :
    assocGet (internQuad st tr c).2.thT tr.1 =
      some (internQuad st tr c).1.1 ∧
    assocGet (internQuad st tr c).2.thT tr.2.1 =
      some (internQuad st tr c).1.2.1 ∧
    assocGet (internQuad st tr c).2.thT tr.2.2 =
      some (internQuad st tr c).1.2.2.1 ∧
    assocGet (internQuad st tr c).2.thT c =
      some (internQuad st tr c).1.2.2.2 ∧
    (internQuad st tr c).2.spoC = st.spoC ∧
    (internQuad st tr c).2.cDb = st.cDb ∧
    (internQuad st tr c).2.cSpo = st.cSpo ∧
    (internQuad st tr c).2.sPo = st.sPo ∧
    (internQuad st tr c).2.pSo = st.pSo ∧
    (internQuad st tr c).2.oSp = st.oSp := by
  have h1 := internTerm_thT_self st tr.1
  have h2 := internTerm_thT_self (internTerm st tr.1).2 tr.2.1
  have h3 := internTerm_thT_self
    (internTerm (internTerm st tr.1).2 tr.2.1).2 tr.2.2
  have h4 := internTerm_thT_self
    (internTerm (internTerm (internTerm st tr.1).2 tr.2.1).2 tr.2.2).2 c
  have p1a := internTerm_preserve (internTerm st tr.1).2 tr.2.1 tr.1 _ h1
  have p1b := internTerm_preserve
    (internTerm (internTerm st tr.1).2 tr.2.1).2 tr.2.2 tr.1 _ p1a
  have p1c := internTerm_preserve
    (internTerm (internTerm (internTerm st tr.1).2 tr.2.1).2 tr.2.2).2 c
    tr.1 _ p1b
  have p2a := internTerm_preserve
    (internTerm (internTerm st tr.1).2 tr.2.1).2 tr.2.2 tr.2.1 _ h2
  have p2b := internTerm_preserve
    (internTerm (internTerm (internTerm st tr.1).2 tr.2.1).2 tr.2.2).2 c
    tr.2.1 _ p2a
  have p3a := internTerm_preserve
    (internTerm (internTerm (internTerm st tr.1).2 tr.2.1).2 tr.2.2).2 c
    tr.2.2 _ h3
  have d1 := internTerm_dbs st tr.1
  have d2 := internTerm_dbs (internTerm st tr.1).2 tr.2.1
  have d3 := internTerm_dbs
    (internTerm (internTerm st tr.1).2 tr.2.1).2 tr.2.2
  have d4 := internTerm_dbs
    (internTerm (internTerm (internTerm st tr.1).2 tr.2.1).2 tr.2.2).2 c
  refine ⟨p1c, p2b, p3a, h4, ?_, ?_, ?_, ?_, ?_, ?_⟩
  · rw [show (internQuad st tr c).2 =
      (internTerm (internTerm (internTerm (internTerm st tr.1).2
        tr.2.1).2 tr.2.2).2 c).2 from rfl]
    rw [d4.1, d3.1, d2.1, d1.1]
  · rw [show (internQuad st tr c).2 =
      (internTerm (internTerm (internTerm (internTerm st tr.1).2
        tr.2.1).2 tr.2.2).2 c).2 from rfl]
    rw [d4.2.1, d3.2.1, d2.2.1, d1.2.1]
  · rw [show (internQuad st tr c).2 =
      (internTerm (internTerm (internTerm (internTerm st tr.1).2
        tr.2.1).2 tr.2.2).2 c).2 from rfl]
    rw [d4.2.2.1, d3.2.2.1, d2.2.2.1, d1.2.2.1]
  · rw [show (internQuad st tr c).2 =
      (internTerm (internTerm (internTerm (internTerm st tr.1).2
        tr.2.1).2 tr.2.2).2 c).2 from rfl]
    rw [d4.2.2.2.1, d3.2.2.2.1, d2.2.2.2.1, d1.2.2.2.1]
  · rw [show (internQuad st tr c).2 =
      (internTerm (internTerm (internTerm (internTerm st tr.1).2
        tr.2.1).2 tr.2.2).2 c).2 from rfl]
    rw [d4.2.2.2.2.1, d3.2.2.2.2.1, d2.2.2.2.2.1, d1.2.2.2.2.1]
  · rw [show (internQuad st tr c).2 =
      (internTerm (internTerm (internTerm (internTerm st tr.1).2
        tr.2.1).2 tr.2.2).2 c).2 from rfl]
    rw [d4.2.2.2.2.2, d3.2.2.2.2.2, d2.2.2.2.2.2, d1.2.2.2.2.2]

theorem internQuad_found (st : StoreState Term) (tr : Term × Term × Term)
    (c : Term) (k1 k2 k3 k4 : Nat)
    (h1 : assocGet st.thT tr.1 = some k1)
    (h2 : assocGet st.thT tr.2.1 = some k2)
    (h3 : assocGet st.thT tr.2.2 = some k3)
    (h4 : assocGet st.thT c = some k4) :
    internQuad st tr c = ((k1, k2, k3, k4), st) := by
  unfold internQuad
  simp only [internTerm_found st tr.1 k1 h1, internTerm_found st tr.2.1 k2 h2,
    internTerm_found st tr.2.2 k3 h3, internTerm_found st c k4 h4]

theorem internQuad_keys_found3 (st : StoreState Term)
    (tr : Term × Term × Term) (c : Term) (k1 k2 k3 : Nat)
    (h1 : assocGet st.thT tr.1 = some k1)
    (h2 : assocGet st.thT tr.2.1 = some k2)
    (h3 : assocGet st.thT tr.2.2 = some k3) :
    (internQuad st tr c).1.1 = k1 ∧ (internQuad st tr c).1.2.1 = k2 ∧
    (internQuad st tr c).1.2.2.1 = k3 := by
  unfold internQuad
  simp only [internTerm_found st tr.1 k1 h1, internTerm_found st tr.2.1 k2 h2,
    internTerm_found st tr.2.2 k3 h3]
  exact ⟨trivial, trivial, trivial⟩

theorem le_foldr_max (l : List Nat) : ∀ a ∈ l, a ≤ l.foldr max 0 := by
  induction l with
  | nil => intro a ha; exact absurd ha (by simp)
  | cons b t ih =>
    intro a ha
    rcases List.mem_cons.mp ha with h | h
    · subst h
      exact le_max_left _ _
    · exact le_trans (ih a h) (le_max_right _ _)

omit [DecidableEq Term] in
theorem mem_lt_freshKey (st : StoreState Term) (e : Nat × Term)
    (h : e ∈ st.tSt) : e.1 < freshKey st := by
  unfold freshKey
  have := le_foldr_max (st.tSt.map (fun x => x.1)) e.1
    (List.mem_map.mpr ⟨e, h, rfl⟩)
  omega

theorem internQuad_fresh_of_none (st : StoreState Term)
    (tr : Term × Term × Term) (c : Term) (hnone : toKey3 st tr = none) :
    (internQuad st tr c).1.1 = freshKey st ∨
    (internQuad st tr c).1.2.1 = freshKey st ∨
    (internQuad st tr c).1.2.2.1 = freshKey st := by
  unfold toKey3 toKey at hnone
  cases h1 : assocGet st.thT tr.1 with
  | none =>
    left
    unfold internQuad internTerm
    rw [h1]
  | some k1 =>
    cases h2 : assocGet st.thT tr.2.1 with
    | none =>
      right; left
      unfold internQuad
      rw [internTerm_found st tr.1 k1 h1]
      unfold internTerm
      simp only
      rw [h2]
    | some k2 =>
      cases h3 : assocGet st.thT tr.2.2 with
      | none =>
        right; right
        unfold internQuad
        rw [internTerm_found st tr.1 k1 h1]
        simp only
        rw [internTerm_found st tr.2.1 k2 h2]
        unfold internTerm
        simp only
        rw [h3]
      | some k3 =>
        rw [h1, h2, h3] at hnone
        simp at hnone

/-- Keys of triples stored in `spo:c` are interned: they appear in `t:st`.
This is the part of the store invariant that arbitrary-state arguments
about freshly allocated keys need. -/
@[reducible] def WfKeys (st : StoreState Term) : Prop :=
  ∀ e ∈ st.spoC, (∃ p2 ∈ st.tSt, p2.1 = e.1.1) ∧
    (∃ p2 ∈ st.tSt, p2.1 = e.1.2.1) ∧ (∃ p2 ∈ st.tSt, p2.1 = e.1.2.2)

/-- The triple is not associated with any context in `spo:c`. -/
@[reducible] def TripleAbsent (st : StoreState Term)
    (tr : Term × Term × Term) : Prop :=
  ∀ e ∈ st.spoC, toKey3 st tr ≠ some e.1

theorem spok_absent (st : StoreState Term) (tr : Term × Term × Term)
    (c : Term) (hwk : WfKeys st) (habs : TripleAbsent st tr) :
    ∀ e ∈ st.spoC,
      e.1 ≠ ((internQuad st tr c).1.1, (internQuad st tr c).1.2.1,
             (internQuad st tr c).1.2.2.1) := by
  intro e he heq
  cases htk : toKey3 st tr with
  | some spok2 =>
    have hks := internQuad_keys_found3 st tr c spok2.1 spok2.2.1 spok2.2.2
      (by
        rcases tr with ⟨ts, tp, to2⟩
        exact ((toKey3_eq_some_iff st ts tp to2 spok2).mp htk).1)
      (by
        rcases tr with ⟨ts, tp, to2⟩
        exact ((toKey3_eq_some_iff st ts tp to2 spok2).mp htk).2.1)
      (by
        rcases tr with ⟨ts, tp, to2⟩
        exact ((toKey3_eq_some_iff st ts tp to2 spok2).mp htk).2.2)
    apply habs e he
    rw [htk, heq, hks.1, hks.2.1, hks.2.2]
  | none =>
    obtain ⟨⟨pa, hpa, hpa1⟩, ⟨pb, hpb, hpb1⟩, ⟨pc, hpc, hpc1⟩⟩ := hwk e he
    have hlta := mem_lt_freshKey st pa hpa
    have hltb := mem_lt_freshKey st pb hpb
    have hltc := mem_lt_freshKey st pc hpc
    rcases internQuad_fresh_of_none st tr c htk with hf | hf | hf
    · have he1 : e.1.1 = (internQuad st tr c).1.1 := congrArg Prod.fst heq
      rw [hf] at he1
      rw [hpa1, he1] at hlta
      exact absurd hlta (lt_irrefl _)
    · have he1 : e.1.2.1 = (internQuad st tr c).1.2.1 :=
        congrArg (fun x => x.2.1) heq
      rw [hf] at he1
      rw [hpb1, he1] at hltb
      exact absurd hltb (lt_irrefl _)
    · have he1 : e.1.2.2 = (internQuad st tr c).1.2.2.1 :=
        congrArg (fun x => x.2.2) heq
      rw [hf] at he1
      rw [hpc1, he1] at hltc
      exact absurd hltc (lt_irrefl _)

theorem lookupE_fully_bound (st2 : StoreState Term) (s p o : Term)
    (spok : TripleKey) (htk : toKey3 st2 (s, p, o) = some spok) :
    lookupE st2 (some s, some p, some o) =
      some (if st2.spoC.any (fun e => e.1 = spok) then [spok] else []) := by
  simp only [lookupE, htk]

theorem tripleKeysE_ctx_fully_bound (st2 : StoreState Term) (s p o c : Term)
    (ck : Nat) (spok : TripleKey)
    (hck : toKey st2 c = some ck) (htk : toKey3 st2 (s, p, o) = some spok) :
    tripleKeysE st2 (some s, some p, some o) (some c) =
      some (if (ck, spok) ∈ st2.cSpo then [spok] else []) := by
  simp only [tripleKeysE, hck, htk]

/-- Evaluation of the containment check when the pattern's triple key is
present (with its context association where a named non-default context is
given). -/
theorem containsQuad_true_of (dg : Term) (st2 : StoreState Term)
    (ts tp to2 : Term) (ctx? : Option Term) (spok : TripleKey) (ck : Nat)
    (htk : toKey3 st2 (ts, tp, to2) = some spok)
    (hmem : (spok, ck) ∈ st2.spoC)
    (hckm : ∀ g, ctx? = some g → g ≠ dg →
      toKey st2 g = some ck ∧ (ck, spok) ∈ st2.cSpo) :
    containsQuad dg st2 (ts, tp, to2) ctx? = true := by
  have hany : st2.spoC.any (fun e => e.1 = spok) = true := by
    rw [List.any_eq_true]
    exact ⟨(spok, ck), hmem, by simp⟩
  cases ctx? with
  | none =>
    simp only [containsQuad, triplesKeys, if_neg (by simp : ¬ (none : Option Term) = some dg)]
    simp only [tripleKeysE, lookupE_fully_bound st2 ts tp to2 spok htk,
      if_pos hany]
    simp
  | some g =>
    by_cases hdg : g = dg
    · subst hdg
      simp only [containsQuad, triplesKeys, if_pos rfl]
      simp only [tripleKeysE, lookupE_fully_bound st2 ts tp to2 spok htk,
        if_pos hany]
      simp
    · obtain ⟨hck, hpair⟩ := hckm g rfl hdg
      simp only [containsQuad, triplesKeys,
        if_neg (by simpa using hdg : ¬ (some g) = some dg)]
      simp only [tripleKeysE_ctx_fully_bound st2 ts tp to2 g ck spok hck htk,
        if_pos hpair]
      simp

/-- Evaluation of the containment check when no stored association matches:
for a no-context (or default-graph) check, no `spo:c` key equals the
pattern's triple key; for a named-context check, the `(ctxKey, tripleKey)`
pair is absent from `c:spo`. -/
theorem containsQuad_false_of (dg : Term) (st2 : StoreState Term)
    (ts tp to2 : Term) (ctx? : Option Term) (spok : TripleKey)
    (htk : toKey3 st2 (ts, tp, to2) = some spok)
    (hnos : (ctx? = none ∨ ctx? = some dg) → ∀ e ∈ st2.spoC, e.1 ≠ spok)
    (hctx : ∀ g, ctx? = some g → g ≠ dg →
      ∃ ck, toKey st2 g = some ck ∧ (ck, spok) ∉ st2.cSpo) :
    containsQuad dg st2 (ts, tp, to2) ctx? = false := by
  cases ctx? with
  | none =>
    have hany : st2.spoC.any (fun e => e.1 = spok) = false := by
      rw [Bool.eq_false_iff]
      intro hc
      rw [List.any_eq_true] at hc
      obtain ⟨e, he, heq⟩ := hc
      exact hnos (Or.inl rfl) e he (by simpa using heq)
    simp only [containsQuad, triplesKeys,
      if_neg (by simp : ¬ (none : Option Term) = some dg)]
    simp only [tripleKeysE, lookupE_fully_bound st2 ts tp to2 spok htk, hany]
    simp
  | some g =>
    by_cases hdg : g = dg
    · subst hdg
      have hany : st2.spoC.any (fun e => e.1 = spok) = false := by
        rw [Bool.eq_false_iff]
        intro hc
        rw [List.any_eq_true] at hc
        obtain ⟨e, he, heq⟩ := hc
        exact hnos (Or.inr rfl) e he (by simpa using heq)
      simp only [containsQuad, triplesKeys, if_pos rfl]
      simp only [tripleKeysE, lookupE_fully_bound st2 ts tp to2 spok htk, hany]
      simp
    · obtain ⟨ck, hck, hpair⟩ := hctx g rfl hdg
      simp only [containsQuad, triplesKeys,
        if_neg (by simpa using hdg : ¬ (some g) = some dg)]
      simp only [tripleKeysE_ctx_fully_bound st2 ts tp to2 g ck spok hck htk,
        if_neg hpair]
      simp

theorem addQuad_contains (dg : Term) (st : StoreState Term)
    (tr : Term × Term × Term) (ctx? : Option Term) :
    containsQuad dg (addQuad dg st tr ctx?) tr ctx? = true := by
  obtain ⟨ts, tp, to2⟩ := tr
  obtain ⟨h1, h2, h3, h4, d1, d2, d3, d4, d5, d6⟩ :=
    internQuad_spec st (ts, tp, to2) (ctx?.getD dg)
  apply containsQuad_true_of dg (addQuad dg st (ts, tp, to2) ctx?) ts tp to2
    ctx?
    ((internQuad st (ts, tp, to2) (ctx?.getD dg)).1.1,
     (internQuad st (ts, tp, to2) (ctx?.getD dg)).1.2.1,
     (internQuad st (ts, tp, to2) (ctx?.getD dg)).1.2.2.1)
    (internQuad st (ts, tp, to2) (ctx?.getD dg)).1.2.2.2
  · rw [toKey3_eq_some_iff]
    exact ⟨h1, h2, h3⟩
  · exact dupPut_mem _ _ _
  · intro g hg _
    subst hg
    exact ⟨h4, dupPut_mem _ _ _⟩

theorem addQuad_proj (dg : Term) (st : StoreState Term)
    (tr : Term × Term × Term) (ctx? : Option Term) :
    (addQuad dg st tr ctx?).tSt = (internQuad st tr (ctx?.getD dg)).2.tSt ∧
    (addQuad dg st tr ctx?).thT = (internQuad st tr (ctx?.getD dg)).2.thT ∧
    (addQuad dg st tr ctx?).spoC =
      dupPut (internQuad st tr (ctx?.getD dg)).2.spoC
        ((internQuad st tr (ctx?.getD dg)).1.1,
         (internQuad st tr (ctx?.getD dg)).1.2.1,
         (internQuad st tr (ctx?.getD dg)).1.2.2.1)
        (internQuad st tr (ctx?.getD dg)).1.2.2.2 ∧
    (addQuad dg st tr ctx?).cDb =
      (if (internQuad st tr (ctx?.getD dg)).1.2.2.2 ∈
          (internQuad st tr (ctx?.getD dg)).2.cDb then
        (internQuad st tr (ctx?.getD dg)).2.cDb
       else (internQuad st tr (ctx?.getD dg)).2.cDb ++
         [(internQuad st tr (ctx?.getD dg)).1.2.2.2]) ∧
    (addQuad dg st tr ctx?).cSpo =
      dupPut (internQuad st tr (ctx?.getD dg)).2.cSpo
        (internQuad st tr (ctx?.getD dg)).1.2.2.2
        ((internQuad st tr (ctx?.getD dg)).1.1,
         (internQuad st tr (ctx?.getD dg)).1.2.1,
         (internQuad st tr (ctx?.getD dg)).1.2.2.1) ∧
    (addQuad dg st tr ctx?).sPo =
      dupPut (internQuad st tr (ctx?.getD dg)).2.sPo
        (internQuad st tr (ctx?.getD dg)).1.1
        ((internQuad st tr (ctx?.getD dg)).1.2.1,
         (internQuad st tr (ctx?.getD dg)).1.2.2.1) ∧
    (addQuad dg st tr ctx?).pSo =
      dupPut (internQuad st tr (ctx?.getD dg)).2.pSo
        (internQuad st tr (ctx?.getD dg)).1.2.1
        ((internQuad st tr (ctx?.getD dg)).1.1,
         (internQuad st tr (ctx?.getD dg)).1.2.2.1) ∧
    (addQuad dg st tr ctx?).oSp =
      dupPut (internQuad st tr (ctx?.getD dg)).2.oSp
        (internQuad st tr (ctx?.getD dg)).1.2.2.1
        ((internQuad st tr (ctx?.getD dg)).1.1,
         (internQuad st tr (ctx?.getD dg)).1.2.1) :=
  ⟨rfl, rfl, rfl, rfl, rfl, rfl, rfl, rfl⟩

theorem addQuad_idem (dg : Term) (st : StoreState Term)
    (tr : Term × Term × Term) (ctx? : Option Term) :
    addQuad dg (addQuad dg st tr ctx?) tr ctx? = addQuad dg st tr ctx? := by
  obtain ⟨ts, tp, to2⟩ := tr
  obtain ⟨h1, h2, h3, h4, d1, d2, d3, d4, d5, d6⟩ :=
    internQuad_spec st (ts, tp, to2) (ctx?.getD dg)
  have hIQ : internQuad (addQuad dg st (ts, tp, to2) ctx?) (ts, tp, to2)
      (ctx?.getD dg) =
      (((internQuad st (ts, tp, to2) (ctx?.getD dg)).1.1,
        (internQuad st (ts, tp, to2) (ctx?.getD dg)).1.2.1,
        (internQuad st (ts, tp, to2) (ctx?.getD dg)).1.2.2.1,
        (internQuad st (ts, tp, to2) (ctx?.getD dg)).1.2.2.2),
       addQuad dg st (ts, tp, to2) ctx?) :=
    internQuad_found _ _ _ _ _ _ _ h1 h2 h3 h4
  obtain ⟨p1, p2, p3, p4, p5, p6, p7, p8⟩ :=
    addQuad_proj dg (addQuad dg st (ts, tp, to2) ctx?) (ts, tp, to2) ctx?
  rw [hIQ] at p1 p2 p3 p4 p5 p6 p7 p8
  obtain ⟨q1, q2, q3, q4, q5, q6, q7, q8⟩ :=
    addQuad_proj dg st (ts, tp, to2) ctx?
  apply storeState_ext
  · exact p1
  · exact p2
  · rw [p3, q3]
    exact dupPut_of_mem _ _ _ (dupPut_mem _ _ _)
  · rw [p4, q4]
    by_cases hm : (internQuad st (ts, tp, to2) (ctx?.getD dg)).1.2.2.2 ∈
        (internQuad st (ts, tp, to2) (ctx?.getD dg)).2.cDb
    · simp [hm]
    · simp [hm]
  · rw [p5, q5]
    exact dupPut_of_mem _ _ _ (dupPut_mem _ _ _)
  · rw [p6, q6]
    exact dupPut_of_mem _ _ _ (dupPut_mem _ _ _)
  · rw [p7, q7]
    exact dupPut_of_mem _ _ _ (dupPut_mem _ _ _)
  · rw [p8, q8]
    exact dupPut_of_mem _ _ _ (dupPut_mem _ _ _)

theorem tripleKeysE_none (st2 : StoreState Term)
    (pat : Option Term × Option Term × Option Term) :
    tripleKeysE st2 pat none = lookupE st2 pat := rfl

theorem toKey_eq_of_thT (a b : StoreState Term) (h : a.thT = b.thT)
    (x : Term) : toKey a x = toKey b x := by
  unfold toKey
  rw [h]

theorem toKey3_eq_of_thT (a b : StoreState Term) (h : a.thT = b.thT)
    (x : Term × Term × Term) : toKey3 a x = toKey3 b x := by
  unfold toKey3 toKey
  rw [h]

theorem removeQ_ctx_eval (st2 : StoreState Term) (ts tp to2 c : Term)
    (ck : Nat) (spok : TripleKey)
    (hck : toKey st2 c = some ck)
    (htk : toKey3 st2 (ts, tp, to2) = some spok)
    (hpair : (ck, spok) ∈ st2.cSpo)
    (hspoc : (spok, ck) ∈ st2.spoC) :
    removeQ st2 (some ts, some tp, some to2) (some c) =
      some (indexTripleRemove
        { st2 with spoC := dupDel st2.spoC spok ck,
                   cSpo := dupDel st2.cSpo ck spok } spok) := by
  simp only [removeQ, hck,
    tripleKeysE_ctx_fully_bound st2 ts tp to2 c ck spok hck htk,
    if_pos hpair]
  rw [List.dedup_cons_of_not_mem (by simp), List.dedup_nil]
  simp only [List.foldl_cons, List.foldl_nil]
  simp only [removeOne, if_pos hspoc]
  rw [if_pos (show (ck, spok) ∈
    ({ st2 with spoC := dupDel st2.spoC spok ck } : StoreState Term).cSpo
    from hpair)]

theorem removeQ_noctx_eval (st2 : StoreState Term) (ts tp to2 : Term)
    (spok : TripleKey)
    (htk : toKey3 st2 (ts, tp, to2) = some spok)
    (hstored : st2.spoC.any (fun e => e.1 = spok) = true)
    (hdups : dups st2.spoC spok ≠ []) :
    ∃ st3, removeQ st2 (some ts, some tp, some to2) none = some st3 ∧
      st3.thT = st2.thT ∧
      st3.spoC = st2.spoC.filter (fun e => e.1 ≠ spok) := by
  cases hd : dups st2.spoC spok with
  | nil => exact absurd hd hdups
  | cons x xs =>
    refine ⟨indexTripleRemove
      { st2 with
        cSpo := List.foldl
          (fun l ck => if (ck, spok) ∈ l then dupDel l ck spok else l)
          st2.cSpo (x :: xs),
        spoC := st2.spoC.filter (fun e => e.1 ≠ spok) } spok,
      ?_, rfl, rfl⟩
    simp only [removeQ, tripleKeysE_none,
      lookupE_fully_bound st2 ts tp to2 spok htk, if_pos hstored]
    rw [List.dedup_cons_of_not_mem (by simp), List.dedup_nil]
    simp only [List.foldl_cons, List.foldl_nil]
    simp only [removeOne, hd]
    rw [List.foldl_cons]

/-- C2 (corrected): for every quad, `add` makes the quad observable through
`triples` and adding an already-present quad leaves the whole store state
unchanged; after `add; add; remove` of the same quad, the quad is no
longer contained — except that when the quad's context is the default
graph, the containment check (which treats a default-graph context as "any
context") can still see the triple through an association with a different
context, so for that case the triple must not be stored under any context
beforehand (see the counterexample).  `WfKeys` is the store invariant that
`spo:c` only references interned keys. -/
theorem add_contains_remove_amended (dg : Term) (st : StoreState Term)
    (tr : Term × Term × Term) (ctx? : Option Term)
    (hwk : WfKeys st) (habs : ctx? = some dg → TripleAbsent st tr) :
    containsQuad dg (addQuad dg st tr ctx?) tr ctx? = true ∧
    addQuad dg (addQuad dg st tr ctx?) tr ctx? = addQuad dg st tr ctx? ∧
    ∃ st3, removeQ (addQuad dg (addQuad dg st tr ctx?) tr ctx?)
        (some tr.1, some tr.2.1, some tr.2.2) ctx? = some st3 ∧
      containsQuad dg st3 tr ctx? = false := by
  refine ⟨addQuad_contains dg st tr ctx?, addQuad_idem dg st tr ctx?, ?_⟩
  rw [addQuad_idem dg st tr ctx?]
  obtain ⟨ts, tp, to2⟩ := tr
  obtain ⟨h1, h2, h3, h4, d1, d2, d3, d4, d5, d6⟩ :=
    internQuad_spec st (ts, tp, to2) (ctx?.getD dg)
  obtain ⟨q1, q2, q3, q4, q5, q6, q7, q8⟩ :=
    addQuad_proj dg st (ts, tp, to2) ctx?
  have htk1 : toKey3 (addQuad dg st (ts, tp, to2) ctx?) (ts, tp, to2) =
      some ((internQuad st (ts, tp, to2) (ctx?.getD dg)).1.1,
            (internQuad st (ts, tp, to2) (ctx?.getD dg)).1.2.1,
            (internQuad st (ts, tp, to2) (ctx?.getD dg)).1.2.2.1) := by
    rw [toKey3_eq_some_iff]
    exact ⟨h1, h2, h3⟩
  have hspoc1 :
      (((internQuad st (ts, tp, to2) (ctx?.getD dg)).1.1,
        (internQuad st (ts, tp, to2) (ctx?.getD dg)).1.2.1,
        (internQuad st (ts, tp, to2) (ctx?.getD dg)).1.2.2.1),
       (internQuad st (ts, tp, to2) (ctx?.getD dg)).1.2.2.2) ∈
        (addQuad dg st (ts, tp, to2) ctx?).spoC := by
    rw [q3, d1]
    exact dupPut_mem _ _ _
  have hpair1 :
      ((internQuad st (ts, tp, to2) (ctx?.getD dg)).1.2.2.2,
       ((internQuad st (ts, tp, to2) (ctx?.getD dg)).1.1,
        (internQuad st (ts, tp, to2) (ctx?.getD dg)).1.2.1,
        (internQuad st (ts, tp, to2) (ctx?.getD dg)).1.2.2.1)) ∈
        (addQuad dg st (ts, tp, to2) ctx?).cSpo := by
    rw [q5, d3]
    exact dupPut_mem _ _ _
  cases hctx : ctx? with
  | none =>
    subst hctx
    have hstored : (addQuad dg st (ts, tp, to2) none).spoC.any
        (fun e => e.1 =
          ((internQuad st (ts, tp, to2) ((none : Option Term).getD dg)).1.1,
           (internQuad st (ts, tp, to2) ((none : Option Term).getD dg)).1.2.1,
           (internQuad st (ts, tp, to2)
             ((none : Option Term).getD dg)).1.2.2.1)) = true := by
      rw [List.any_eq_true]
      exact ⟨_, hspoc1, by simp⟩
    have hdups : dups (addQuad dg st (ts, tp, to2) none).spoC
        ((internQuad st (ts, tp, to2) ((none : Option Term).getD dg)).1.1,
         (internQuad st (ts, tp, to2) ((none : Option Term).getD dg)).1.2.1,
         (internQuad st (ts, tp, to2)
           ((none : Option Term).getD dg)).1.2.2.1) ≠ [] := by
      have hm : (internQuad st (ts, tp, to2)
            ((none : Option Term).getD dg)).1.2.2.2 ∈
          dups (addQuad dg st (ts, tp, to2) none).spoC
            ((internQuad st (ts, tp, to2)
               ((none : Option Term).getD dg)).1.1,
             (internQuad st (ts, tp, to2)
               ((none : Option Term).getD dg)).1.2.1,
             (internQuad st (ts, tp, to2)
               ((none : Option Term).getD dg)).1.2.2.1) := by
        rw [mem_dups_iff]
        exact ⟨_, hspoc1, rfl, rfl⟩
      intro hnil
      rw [hnil] at hm
      exact absurd hm (List.not_mem_nil _)
    obtain ⟨st3, hrm, hthT3, hspoC3⟩ :=
      removeQ_noctx_eval (addQuad dg st (ts, tp, to2) none) ts tp to2 _
        htk1 hstored hdups
    refine ⟨st3, hrm, ?_⟩
    apply containsQuad_false_of dg st3 ts tp to2 none
    · rw [toKey3_eq_of_thT st3 (addQuad dg st (ts, tp, to2) none) hthT3]
      exact htk1
    · intro _ e he heq
      rw [hspoC3, List.mem_filter] at he
      exact absurd heq (by simpa using he.2)
    · intro g hg _
      exact absurd hg (by simp)
  | some g =>
    subst hctx
    refine ⟨_, removeQ_ctx_eval (addQuad dg st (ts, tp, to2) (some g))
      ts tp to2 g _ _ (by unfold toKey; rw [q2]; exact h4) htk1 hpair1
      hspoc1, ?_⟩
    apply containsQuad_false_of dg _ ts tp to2 (some g)
    · exact htk1
    · rintro (hbad | hdgeq) e he heq
      · exact absurd hbad (by simp)
      · have hgd : g = dg := by
          simpa using hdgeq
        have he2 : e ∈ dupDel (addQuad dg st (ts, tp, to2) (some g)).spoC
            ((internQuad st (ts, tp, to2) ((some g).getD dg)).1.1,
             (internQuad st (ts, tp, to2) ((some g).getD dg)).1.2.1,
             (internQuad st (ts, tp, to2) ((some g).getD dg)).1.2.2.1)
            (internQuad st (ts, tp, to2) ((some g).getD dg)).1.2.2.2 := he
        rw [mem_dupDel_iff] at he2
        obtain ⟨heA, hne⟩ := he2
        rw [q3, d1, mem_dupPut_iff] at heA
        rcases heA with heSt | heEq
        · have habs2 := habs (by rw [hgd])
          exact spok_absent st (ts, tp, to2) ((some g).getD dg) hwk habs2
            e heSt heq
        · exact hne heEq
    · intro g2 hg2 _
      have hg2g : g2 = g := by
        simpa using hg2.symm
      subst hg2g
      refine ⟨(internQuad st (ts, tp, to2) ((some g2).getD dg)).1.2.2.2,
        ?_, ?_⟩
      · have hck : toKey (addQuad dg st (ts, tp, to2) (some g2)) g2 =
            some (internQuad st (ts, tp, to2)
              ((some g2).getD dg)).1.2.2.2 := by
          unfold toKey
          rw [q2]
          exact h4
        exact hck
      · intro hmem
        have hmem2 :
            ((internQuad st (ts, tp, to2) ((some g2).getD dg)).1.2.2.2,
             ((internQuad st (ts, tp, to2) ((some g2).getD dg)).1.1,
              (internQuad st (ts, tp, to2) ((some g2).getD dg)).1.2.1,
              (internQuad st (ts, tp, to2) ((some g2).getD dg)).1.2.2.1)) ∈
            dupDel (addQuad dg st (ts, tp, to2) (some g2)).cSpo
              (internQuad st (ts, tp, to2) ((some g2).getD dg)).1.2.2.2
              ((internQuad st (ts, tp, to2) ((some g2).getD dg)).1.1,
               (internQuad st (ts, tp, to2) ((some g2).getD dg)).1.2.1,
               (internQuad st (ts, tp, to2) ((some g2).getD dg)).1.2.2.1) :=
          hmem
        rw [mem_dupDel_iff] at hmem2
        exact hmem2.2 rfl

/-- Witness for `add_contains_remove_amended` on the empty store with a
named context. -/
theorem add_contains_remove_amended_witness :
    WfKeys (emptyStore : StoreState Nat) ∧
    containsQuad 0 (addQuad 0 (emptyStore : StoreState Nat) (2, 3, 4)
      (some 1)) (2, 3, 4) (some 1) = true ∧
    addQuad 0 (addQuad 0 (emptyStore : StoreState Nat) (2, 3, 4) (some 1))
      (2, 3, 4) (some 1) = addQuad 0 emptyStore (2, 3, 4) (some 1) ∧
    ∃ st3, removeQ (addQuad 0 (addQuad 0 (emptyStore : StoreState Nat)
        (2, 3, 4) (some 1)) (2, 3, 4) (some 1)) (some 2, some 3, some 4)
        (some 1) = some st3 ∧
      containsQuad 0 st3 (2, 3, 4) (some 1) = false :=
  ⟨by decide,
    (add_contains_remove_amended 0 emptyStore (2, 3, 4) (some 1)
      (by decide) (by decide)).1,
    (add_contains_remove_amended 0 emptyStore (2, 3, 4) (some 1)
      (by decide) (by decide)).2.1,
    (add_contains_remove_amended 0 emptyStore (2, 3, 4) (some 1)
      (by decide) (by decide)).2.2⟩
